import Mathlib

/-!
# Inbound federation transaction processing (federationapi/routing/send.go)

A shallow embedding of the handler of `PUT /_matrix/federation/v1/send/{txnID}`, and of
the public-rooms output consumer (publicroomsapi/consumers/roomserver.go).

* Go values become Lean structures; a Go `error` is `Option GoError` (`none` is `nil`).
* Every collaborator outside the file (room-state engine, federation client, key ring,
  producers, JSON and event library) is a field of `Env`.  A stateful collaborator
  receives the log of all calls made so far, so its answers may change during a run.
* The handler threads that log: each external call appends one `Call` with its request
  and its answer.
* The mutual recursion of `processEvent`, `processEventWithMissingState` and
  `getMissingEvents` is driven by a step budget; `none` means the budget ran out.
* A run-time panic of the decode loop of `processTransaction` or of `onMessage` is the
  result `none` as well: the function does not return.
-/

namespace Dendrite

/-! ## Data model -/

/-- The part of `gomatrixserverlib.Event` the handler reads.  `body` stands for the rest
of the event (type, sender, content, hashes, signatures). -/
structure Event where
  eventID : String
  roomID : String
  prevEventIDs : List String
  body : Nat
deriving DecidableEq, Repr

/-- Go `gomatrixserverlib.HeaderedEvent`: an event with its room version. -/
structure HeaderedEvent where
  roomVersion : String
  event : Event
deriving DecidableEq, Repr

/-- Go `Event.Headered`. -/
def Event.headered (e : Event) (roomVersion : String) : HeaderedEvent :=
  { roomVersion := roomVersion, event := e }

/-- Go `HeaderedEvent.Unwrap`. -/
def HeaderedEvent.unwrap (h : HeaderedEvent) : Event := h.event

/-- Go `HeaderedEvent.EventID`. -/
def HeaderedEvent.eventID (h : HeaderedEvent) : String := h.event.eventID

/-- Go `gomatrixserverlib.EDU`. -/
structure EDU where
  type : String
  content : String
deriving DecidableEq, Repr

/-- Go `gomatrixserverlib.MTyping`. -/
def MTyping : String := "m.typing"

/-- The payload of a typing EDU as decoded in `processEDUs`. -/
structure TypingPayload where
  roomID : String
  userID : String
  typing : Bool
deriving DecidableEq, Repr

/-- Go `gomatrixserverlib.RespState`. -/
structure RespState where
  stateEvents : List Event
  authEvents : List Event
deriving DecidableEq, Repr

/-- Go `gomatrixserverlib.RespStateIDs`. -/
structure RespStateIDs where
  stateEventIDs : List String
  authEventIDs : List String
deriving DecidableEq, Repr

/-- Go `gomatrixserverlib.MissingEvents`, the body of `/get_missing_events`. -/
structure MissingEvents where
  limit : Int
  minDepth : Int
  earliestEvents : List String
  latestEvents : List String
deriving DecidableEq, Repr

/-- Go `gomatrixserverlib.RespMissingEvents`. -/
structure RespMissingEvents where
  events : List Event
deriving DecidableEq, Repr

/-- Go `gomatrixserverlib.EventReference` (the hash is not read by the handler). -/
structure EventReference where
  eventID : String
deriving DecidableEq, Repr

/-- The fields of `api.QueryStateAfterEventsResponse`. -/
structure QueryStateAfterEventsResponse where
  roomExists : Bool
  roomVersion : String
  prevEventsExist : Bool
  stateEvents : List HeaderedEvent
deriving DecidableEq, Repr

/-- The fields of `api.QueryLatestEventsAndStateResponse` read by `getMissingEvents`. -/
structure QueryLatestEventsAndStateResponse where
  latestEvents : List EventReference
  depth : Int
deriving DecidableEq, Repr

/-- The dynamic types of the Go errors the handler tells apart.  `other` is any error of
another type (state-engine, network, key ring, JSON). -/
inductive GoError where
  | roomNotFoundError (roomID : String)
  | unmarshalError (err : GoError)
  | verifySigError (eventID : String) (err : GoError)
  | notAllowed (message : String)
  | missingAuthEventError (authEventID : String)
  | other (message : String)
deriving DecidableEq, Repr

/-- Go's `%q` on an identifier without special characters: the text in double quotes. -/
def quoted (s : String) : String := "\"" ++ s ++ "\""

/-- The `Error()` methods.  The three local types follow send.go; the library types carry
their text. -/
def GoError.Error : GoError → String
  | .roomNotFoundError roomID => "room " ++ quoted roomID ++ " not found"
  | .unmarshalError err => "unable to parse event: " ++ err.Error
  | .verifySigError eventID err =>
      "unable to verify signature of event " ++ quoted eventID ++ ": " ++ err.Error
  | .notAllowed message => message
  | .missingAuthEventError authEventID => "missing auth event " ++ authEventID
  | .other message => message

/-- Go `gomatrixserverlib.PDUResult`; the empty string is the absent `error` field. -/
structure PDUResult where
  error : String
deriving DecidableEq, Repr

/-- Go `gomatrixserverlib.RespSend`: the map from event id to result, as an association
list with distinct keys. -/
structure RespSend where
  pdus : List (String × PDUResult)
deriving DecidableEq, Repr

/-- The embedded `gomatrixserverlib.Transaction` of `txnReq`, with raw PDUs. -/
structure TxnReq where
  pdus : List String
  edus : List EDU
  origin : String
  transactionID : String
  destination : String
deriving DecidableEq, Repr

/-! ## Go maps as association lists -/

/-- The assignment `m[k] = v`: overwrite the entry of `k` or add one. -/
def mapSet {V : Type} (m : List (String × V)) (k : String) (v : V) : List (String × V) :=
  match m with
  | [] => [(k, v)]
  | (k', v') :: rest => if k' = k then (k, v) :: rest else (k', v') :: mapSet rest k v

/-- The lookup `m[k]` with its presence flag. -/
def mapGet {V : Type} (m : List (String × V)) (k : String) : Option V :=
  match m with
  | [] => none
  | (k', v') :: rest => if k' = k then some v' else mapGet rest k

/-- The keys of a map. -/
def mapKeys {V : Type} (m : List (String × V)) : List String := m.map Prod.fst

/-! ## The log of external calls -/

deriving instance DecidableEq for Except

/-- One external call with its request and its answer.  `processEvent` is not an
external call: it marks each entry into `txnReq.processEvent`. -/
inductive Call where
  | processEvent (e : Event) (isInboundTxn : Bool)
  | queryRoomVersionForRoom (roomID : String) (res : Except GoError String)
  | verifyAllEventSignatures (events : List Event) (res : Option GoError)
  | queryStateAfterEvents (roomID : String) (prevEventIDs : List String)
      (stateToFetch : List (String × String))
      (res : Except GoError QueryStateAfterEventsResponse)
  | queryEventsByID (eventIDs : List String) (res : Except GoError (List HeaderedEvent))
  | queryLatestEventsAndState (roomID : String)
      (res : Except GoError QueryLatestEventsAndStateResponse)
  | lookupState (origin roomID eventID roomVersion : String) (res : Except GoError RespState)
  | lookupStateIDs (origin roomID eventID : String) (res : Except GoError RespStateIDs)
  | getEvent (origin eventID : String) (res : Except GoError (List String))
  | lookupMissingEvents (origin roomID : String) (missing : MissingEvents)
      (roomVersion : String) (res : Except GoError RespMissingEvents)
  | check (state : RespState) (res : Option GoError)
  | sendEvents (events : List HeaderedEvent) (res : Option GoError)
  | sendEventWithState (state : RespState) (event : HeaderedEvent) (res : Option GoError)
  | sendTyping (userID roomID : String) (typing : Bool) (timeout : Int)
      (res : Option GoError)
deriving DecidableEq

/-- The calls made so far, oldest first. -/
abbrev Log := List Call

/-- The collaborators of `txnReq`.  `A` is the type of `gomatrixserverlib.AuthEvents`. -/
structure Env (A : Type) where
  /-- Go `json.Unmarshal` of the request body into `pdus` and `edus`. -/
  unmarshalTxn : String → Except GoError (List String × List EDU)
  /-- Go `json.Unmarshal` of a raw PDU into its `room_id` header. -/
  unmarshalRoomID : String → Except GoError String
  /-- Go `gomatrixserverlib.NewEventFromUntrustedJSON(pdu, roomVersion)`. -/
  newEventFromUntrustedJSON : String → String → Except GoError Event
  /-- Go `event.EventID()` on the event that `NewEventFromUntrustedJSON(pdu, roomVersion)`
  returns together with an error; `none` when the call panics because the fields of the
  event were not decoded. -/
  failedEventID : String → String → Option String
  /-- Go `json.Unmarshal` of the content of a typing EDU. -/
  unmarshalTyping : String → Except GoError TypingPayload
  /-- Go `gomatrixserverlib.StateNeededForAuth(events).Tuples()`. -/
  stateNeededForAuth : List Event → List (String × String)
  /-- Go `gomatrixserverlib.NewAuthEvents(nil)`. -/
  newAuthEvents : A
  /-- Go `AuthEvents.AddEvent`. -/
  addEvent : A → Event → Except GoError A
  /-- Go `gomatrixserverlib.Allowed`. -/
  allowed : Event → A → Option GoError
  /-- The events that `range path` visits when `findPath` reported a path.  The source
  `findPath` yields only a truth value, so the sequence is left to the environment. -/
  pathOf : List Event → Event → List String → List Event
  queryRoomVersionForRoom : Log → String → Except GoError String
  queryStateAfterEvents : Log → String → List String → List (String × String) →
    Except GoError QueryStateAfterEventsResponse
  queryEventsByID : Log → List String → Except GoError (List HeaderedEvent)
  queryLatestEventsAndState : Log → String → Except GoError QueryLatestEventsAndStateResponse
  lookupState : Log → String → String → String → String → Except GoError RespState
  lookupStateIDs : Log → String → String → String → Except GoError RespStateIDs
  getEvent : Log → String → String → Except GoError (List String)
  lookupMissingEvents : Log → String → String → MissingEvents → String →
    Except GoError RespMissingEvents
  verifyAllEventSignatures : Log → List Event → Option GoError
  /-- Go `RespState.Check(ctx, keys)`. -/
  check : Log → RespState → Option GoError
  sendEvents : Log → List HeaderedEvent → Option GoError
  sendEventWithState : Log → RespState → HeaderedEvent → Option GoError
  sendTyping : Log → String → String → Bool → Int → Option GoError


/-! ## Graph utility: findPath -/

/-- The first loop of `findPath`: `eventIDMap[ev.EventID()] = ev` for every event. -/
def buildEventIDMap (events : List Event) : List (String × Event) :=
  events.foldl (fun m ev => mapSet m ev.eventID ev) []

/-- The `for len(stack) > 0` loop of `findPath`.  The top of the stack is the last
element, as in the source.  Each round pops one id; the budget counts rounds. -/
def findPathLoop (eventIDMap : List (String × Event)) (toAnyEventIDs : List String) :
    Nat → List String → List String → Option Bool
  | 0, _, _ => none
  | fuel + 1, stack, seenOnStack =>
    match stack.getLast? with
    | none => some false
    | some next =>
      let stack := stack.dropLast
      if next ∈ seenOnStack then
        findPathLoop eventIDMap toAnyEventIDs fuel stack seenOnStack
      else
        let seenOnStack := next :: seenOnStack
        if next ∈ toAnyEventIDs then
          some true
        else
          match mapGet eventIDMap next with
          | some ev =>
            findPathLoop eventIDMap toAnyEventIDs fuel (stack ++ ev.prevEventIDs) seenOnStack
          | none => findPathLoop eventIDMap toAnyEventIDs fuel stack seenOnStack

/-- The number of rounds `findPath` can need: every id pushed is popped once, and ids are
pushed from `fromEvent` and at most once from each event of the bag. -/
def findPathBudget (events : List Event) (fromEvent : Event) : Nat :=
  fromEvent.prevEventIDs.length + (events.map (fun ev => ev.prevEventIDs.length)).sum + 1

/-- The source `findPath`: a depth-first scan over event ids that returns `true` when an
id of `toAnyEventIDs` is reached and `false` otherwise. -/
def findPath (events : List Event) (fromEvent : Event) (toAnyEventIDs : List String) :
    Option Bool :=
  findPathLoop (buildEventIDMap events) toAnyEventIDs (findPathBudget events fromEvent)
    fromEvent.prevEventIDs []

/-! ## Authorization against a state set -/

/-- The loop of `checkAllowedByState`: `AddEvent` for each state event, stopping at the
first error. -/
def addEvents {A : Type} (env : Env A) : A → List Event → Except GoError A
  | a, [] => .ok a
  | a, s :: rest =>
    match env.addEvent a s with
    | .error err => .error err
    | .ok a' => addEvents env a' rest

/-- The source `checkAllowedByState`. -/
def checkAllowedByState {A : Type} (env : Env A) (e : Event) (stateEvents : List Event) :
    Option GoError :=
  match addEvents env env.newAuthEvents stateEvents with
  | .error err => some err
  | .ok authUsingState => env.allowed e authUsingState

/-! ## Fetching the state at an event from the remote server -/

/-- The source `txnReq.lookupMissingStateViaState`: `/state`, then `RespState.Check`. -/
def lookupMissingStateViaState {A : Type} (env : Env A) (t : TxnReq) (e : Event)
    (roomVersion : String) (log : Log) : Except GoError RespState × Log :=
  let r := env.lookupState log t.origin e.roomID e.eventID roomVersion
  let log := log ++ [Call.lookupState t.origin e.roomID e.eventID roomVersion r]
  match r with
  | .error err => (.error err, log)
  | .ok state =>
    let c := env.check log state
    let log := log ++ [Call.check state c]
    match c with
    | some err => (.error err, log)
    | none => (.ok state, log)

/-- The inner loop of the bulk query: `haveEventMap[ev.EventID()] = &ev`. -/
def indexEvents (haveEventMap : List (String × HeaderedEvent)) (events : List HeaderedEvent) :
    List (String × HeaderedEvent) :=
  events.foldl (fun m ev => mapSet m ev.eventID ev) haveEventMap

/-- The bulk-query loop over `[StateEventIDs, AuthEventIDs]`. -/
def queryHaveEvents {A : Type} (env : Env A) :
    List (List String) → List (String × HeaderedEvent) → Log →
      Except GoError (List (String × HeaderedEvent)) × Log
  | [], haveEventMap, log => (.ok haveEventMap, log)
  | eventList :: rest, haveEventMap, log =>
    let r := env.queryEventsByID log eventList
    let log := log ++ [Call.queryEventsByID eventList r]
    match r with
    | .error err => (.error err, log)
    | .ok events => queryHaveEvents env rest (indexEvents haveEventMap events) log

/-- The loop that fills `missing`: the wanted ids absent from `haveEventMap`, each once.
Go ranges over that map in an unspecified order; the embedding uses the order of first
occurrence in `wantIDs`. -/
def missingIDs (haveEventMap : List (String × HeaderedEvent)) (wantIDs : List String) :
    List String :=
  (wantIDs.filter (fun sid => (mapGet haveEventMap sid).isNone)).eraseDups

/-- The loop over `txn.PDUs` of one `/event` answer: parse, verify, index.  The log
statement of line 417 evaluates `event.EventID()` on the event of a failed parse, as
line 130 does; where that call panics the lookup does not return, and this function gives
the error the lookup returns when it does not. -/
def indexFetchedPDUs {A : Type} (env : Env A) (roomVersion : String) :
    List String → List (String × HeaderedEvent) → Log →
      Except GoError (List (String × HeaderedEvent)) × Log
  | [], haveEventMap, log => (.ok haveEventMap, log)
  | pdu :: rest, haveEventMap, log =>
    match env.newEventFromUntrustedJSON pdu roomVersion with
    | .error err => (.error (GoError.unmarshalError err), log)
    | .ok event =>
      let v := env.verifyAllEventSignatures log [event]
      let log := log ++ [Call.verifyAllEventSignatures [event] v]
      match v with
      | some err => (.error (GoError.verifySigError event.eventID err), log)
      | none =>
        indexFetchedPDUs env roomVersion rest
          (mapSet haveEventMap event.eventID (event.headered roomVersion)) log

/-- The loop over `missing`: one `/event` request per missing id. -/
def fetchMissing {A : Type} (env : Env A) (t : TxnReq) (roomVersion : String) :
    List String → List (String × HeaderedEvent) → Log →
      Except GoError (List (String × HeaderedEvent)) × Log
  | [], haveEventMap, log => (.ok haveEventMap, log)
  | missingEventID :: rest, haveEventMap, log =>
    let r := env.getEvent log t.origin missingEventID
    let log := log ++ [Call.getEvent t.origin missingEventID r]
    match r with
    | .error err => (.error err, log)
    | .ok pdus =>
      match indexFetchedPDUs env roomVersion pdus haveEventMap log with
      | (.error err, log) => (.error err, log)
      | (.ok haveEventMap, log) => fetchMissing env t roomVersion rest haveEventMap log

/-- The two loops of `createRespStateFromStateIDs` that resolve ids through
`haveEventMap`; `what` is "state" or "auth". -/
def resolveIDs (what : String) (haveEventMap : List (String × HeaderedEvent)) :
    List String → Except GoError (List Event)
  | [] => .ok []
  | id :: rest =>
    match mapGet haveEventMap id with
    | none => .error (GoError.other ("missing " ++ what ++ " event " ++ id))
    | some ev =>
      match resolveIDs what haveEventMap rest with
      | .error err => .error err
      | .ok evs => .ok (ev.unwrap :: evs)

/-- The source `txnReq.createRespStateFromStateIDs`. -/
def createRespStateFromStateIDs {A : Type} (env : Env A) (stateIDs : RespStateIDs)
    (haveEventMap : List (String × HeaderedEvent)) (log : Log) :
    Except GoError RespState × Log :=
  match resolveIDs "state" haveEventMap stateIDs.stateEventIDs with
  | .error err => (.error err, log)
  | .ok stateEvents =>
    match resolveIDs "auth" haveEventMap stateIDs.authEventIDs with
    | .error err => (.error err, log)
    | .ok authEvents =>
      let respState : RespState := { stateEvents := stateEvents, authEvents := authEvents }
      let c := env.check log respState
      let log := log ++ [Call.check respState c]
      match c with
      | some err => (.error err, log)
      | none => (.ok respState, log)

/-- The source `txnReq.lookupMissingStateViaStateIDs`: `/state_ids`, the local bulk
query, `/event` for the rest, then `createRespStateFromStateIDs`. -/
def lookupMissingStateViaStateIDs {A : Type} (env : Env A) (t : TxnReq) (e : Event)
    (roomVersion : String) (log : Log) : Except GoError RespState × Log :=
  let r := env.lookupStateIDs log t.origin e.roomID e.eventID
  let log := log ++ [Call.lookupStateIDs t.origin e.roomID e.eventID r]
  match r with
  | .error err => (.error err, log)
  | .ok stateIDs =>
    match queryHaveEvents env [stateIDs.stateEventIDs, stateIDs.authEventIDs] [] log with
    | (.error err, log) => (.error err, log)
    | (.ok haveEventMap, log) =>
      let wantIDs := stateIDs.stateEventIDs ++ stateIDs.authEventIDs
      match fetchMissing env t roomVersion (missingIDs haveEventMap wantIDs) haveEventMap log with
      | (.error err, log) => (.error err, log)
      | (.ok haveEventMap, log) => createRespStateFromStateIDs env stateIDs haveEventMap log


/-! ## Processing one event -/

/-- The `/get_missing_events` request of `getMissingEvents`.  `minDepth` is the exact
difference `res.Depth - 20`; Go's `int` wraps around for depths within 20 of the least
value, which no statement here depends on. -/
def missingEventsRequest (res : QueryLatestEventsAndStateResponse) (e : Event) : MissingEvents :=
  { limit := 20
    minDepth := res.depth - 20
    earliestEvents := res.latestEvents.map EventReference.eventID
    latestEvents := [e.eventID] }

mutual

/-- The source `txnReq.processEvent`. -/
def processEvent {A : Type} (env : Env A) (t : TxnReq) (fuel : Nat) (e : Event)
    (isInboundTxn : Bool) (log : Log) : Option (Option GoError × Log) :=
  match fuel with
  | 0 => none
  | fuel + 1 =>
    let log := log ++ [Call.processEvent e isInboundTxn]
    let needed := env.stateNeededForAuth [e]
    let r := env.queryStateAfterEvents log e.roomID e.prevEventIDs needed
    let log := log ++ [Call.queryStateAfterEvents e.roomID e.prevEventIDs needed r]
    match r with
    | .error err => some (some err, log)
    | .ok stateResp =>
      if !stateResp.roomExists then
        some (some (GoError.roomNotFoundError e.roomID), log)
      else if !stateResp.prevEventsExist then
        processEventWithMissingState env t fuel e stateResp.roomVersion isInboundTxn log
      else
        let events := stateResp.stateEvents.map HeaderedEvent.unwrap
        match checkAllowedByState env e events with
        | some err => some (some err, log)
        | none =>
          let s := env.sendEvents log [e.headered stateResp.roomVersion]
          some (s, log ++ [Call.sendEvents [e.headered stateResp.roomVersion] s])

/-- The source `txnReq.processEventWithMissingState` up to the label
`retryAllowedState`. -/
def processEventWithMissingState {A : Type} (env : Env A) (t : TxnReq) (fuel : Nat)
    (e : Event) (roomVersion : String) (isInboundTxn : Bool) (log : Log) :
    Option (Option GoError × Log) :=
  match fuel with
  | 0 => none
  | fuel + 1 =>
    match getMissingEvents env t fuel e roomVersion isInboundTxn log with
    | none => none
    | some (_, some err, log) => some (some err, log)
    | some (true, none, log) => some (none, log)
    | some (false, none, log) =>
      match lookupMissingStateViaStateIDs env t e roomVersion log with
      | (.ok respState, log) =>
        retryAllowedState env t fuel e roomVersion isInboundTxn respState log
      | (.error _, log) =>
        match lookupMissingStateViaState env t e roomVersion log with
        | (.error err, log) => some (some err, log)
        | (.ok respState, log) =>
          retryAllowedState env t fuel e roomVersion isInboundTxn respState log

/-- The code of `processEventWithMissingState` from the label `retryAllowedState` on:
the authorization check against `respState`, then the commit with the state. -/
def retryAllowedState {A : Type} (env : Env A) (t : TxnReq) (fuel : Nat) (e : Event)
    (roomVersion : String) (isInboundTxn : Bool) (respState : RespState) (log : Log) :
    Option (Option GoError × Log) :=
  match fuel with
  | 0 => none
  | fuel + 1 =>
    match checkAllowedByState env e respState.stateEvents with
    | some (GoError.missingAuthEventError authEventID) =>
      missingAuthLoop env t fuel e roomVersion isInboundTxn respState authEventID
        respState.stateEvents (GoError.missingAuthEventError authEventID) log
    | some err => some (some err, log)
    | none =>
      let s := env.sendEventWithState log respState (e.headered roomVersion)
      some (s, log ++ [Call.sendEventWithState respState (e.headered roomVersion) s])

/-- The `for _, s := range respState.StateEvents` loop of the missing-auth case.
`remaining` are the state events still to visit and `err` is the current value of the
variable `err`, returned when the loop ends. -/
def missingAuthLoop {A : Type} (env : Env A) (t : TxnReq) (fuel : Nat) (e : Event)
    (roomVersion : String) (isInboundTxn : Bool) (respState : RespState)
    (authEventID : String) (remaining : List Event) (err : GoError) (log : Log) :
    Option (Option GoError × Log) :=
  match fuel with
  | 0 => none
  | fuel + 1 =>
    match remaining with
    | [] => some (some err, log)
    | s :: rest =>
      if s.eventID ≠ authEventID then
        missingAuthLoop env t fuel e roomVersion isInboundTxn respState authEventID rest err log
      else
        match processEventWithMissingState env t fuel s roomVersion isInboundTxn log with
        | none => none
        | some (none, log) =>
          retryAllowedState env t fuel e roomVersion isInboundTxn respState log
        | some (some err, log) =>
          missingAuthLoop env t fuel e roomVersion isInboundTxn respState authEventID rest
            err log

/-- The source `txnReq.getMissingEvents`; the result is `(ok, err)` and the log. -/
def getMissingEvents {A : Type} (env : Env A) (t : TxnReq) (fuel : Nat) (e : Event)
    (roomVersion : String) (isInboundTxn : Bool) (log : Log) :
    Option (Bool × Option GoError × Log) :=
  match fuel with
  | 0 => none
  | fuel + 1 =>
    let q := env.queryLatestEventsAndState log e.roomID
    let log := log ++ [Call.queryLatestEventsAndState e.roomID q]
    match q with
    | .error _ => some (false, none, log)
    | .ok res =>
      let latestEvents := res.latestEvents.map EventReference.eventID
      let m := env.lookupMissingEvents log t.origin e.roomID (missingEventsRequest res e)
        roomVersion
      let log := log ++ [Call.lookupMissingEvents t.origin e.roomID
        (missingEventsRequest res e) roomVersion m]
      match m with
      | .error err => if isInboundTxn then some (false, some err, log) else some (false, none, log)
      | .ok missingResp =>
        match findPath missingResp.events e latestEvents with
        | none => none
        | some false => some (false, none, log)
        | some true =>
          match processPath env t fuel (env.pathOf missingResp.events e latestEvents) log with
          | none => none
          | some (some err, log) => some (false, some err, log)
          | some (none, log) =>
            match processEvent env t fuel e false log with
            | none => none
            | some (_, log) => some (false, none, log)

/-- The `for _, e := range path` loop of `getMissingEvents`: process each event of the
path, stopping at the first error. -/
def processPath {A : Type} (env : Env A) (t : TxnReq) (fuel : Nat) (path : List Event)
    (log : Log) : Option (Option GoError × Log) :=
  match fuel with
  | 0 => none
  | fuel + 1 =>
    match path with
    | [] => some (none, log)
    | e :: rest =>
      match processEvent env t fuel e false log with
      | none => none
      | some (some err, log) => some (some err, log)
      | some (none, log) => processPath env t fuel rest log

end

/-! ## Processing a transaction -/

/-- The source `txnReq.processEDUs`: typing notifications are forwarded with a timeout of
`30*1000`, every failure is only logged. -/
def processEDUs {A : Type} (env : Env A) : List EDU → Log → Log
  | [], log => log
  | e :: rest, log =>
    if e.type = MTyping then
      match env.unmarshalTyping e.content with
      | .error _ => processEDUs env rest log
      | .ok typingPayload =>
        let r := env.sendTyping log typingPayload.userID typingPayload.roomID
          typingPayload.typing (30 * 1000)
        processEDUs env rest (log ++ [Call.sendTyping typingPayload.userID
          typingPayload.roomID typingPayload.typing (30 * 1000) r])
    else
      processEDUs env rest log

/-- The first loop of `processTransaction`: for each raw PDU extract the room id, ask
the state engine for the room version, parse and verify the signatures.  `pdus` is the
slice built so far.  On a parse error the log statement of line 130 evaluates
`event.EventID()` on the failed event before the `return`; the result `none` is the panic
of that call. -/
def decodePDUs {A : Type} (env : Env A) :
    List String → List HeaderedEvent → Log →
      Option (Except GoError (List HeaderedEvent) × Log)
  | [], pdus, log => some (.ok pdus, log)
  | pdu :: rest, pdus, log =>
    match env.unmarshalRoomID pdu with
    | .error err => some (.error (GoError.unmarshalError err), log)
    | .ok roomID =>
      let v := env.queryRoomVersionForRoom log roomID
      let log := log ++ [Call.queryRoomVersionForRoom roomID v]
      match v with
      | .error _ => some (.error (GoError.roomNotFoundError roomID), log)
      | .ok roomVersion =>
        match env.newEventFromUntrustedJSON pdu roomVersion with
        | .error err =>
          match env.failedEventID pdu roomVersion with
          | none => none
          | some _ => some (.error (GoError.unmarshalError err), log)
        | .ok event =>
          let s := env.verifyAllEventSignatures log [event]
          let log := log ++ [Call.verifyAllEventSignatures [event] s]
          match s with
          | some err => some (.error (GoError.verifySigError event.eventID err), log)
          | none => decodePDUs env rest (pdus ++ [event.headered roomVersion]) log

/-- The second loop of `processTransaction` ("Process the events"): `results` is the
map built so far; an error result is the `return nil, err` of the `default` case. -/
def processPDUs {A : Type} (env : Env A) (t : TxnReq) (fuel : Nat) :
    List HeaderedEvent → List (String × PDUResult) → Log →
      Option (Except GoError (List (String × PDUResult)) × Log)
  | [], results, log => some (.ok results, log)
  | e :: rest, results, log =>
    match processEvent env t fuel e.unwrap true log with
    | none => none
    | some (none, log) =>
      processPDUs env t fuel rest (mapSet results e.eventID { error := "" }) log
    | some (some err, log) =>
      match err with
      | GoError.roomNotFoundError _ | GoError.notAllowed _ =>
        processPDUs env t fuel rest (mapSet results e.eventID { error := err.Error }) log
      | _ => some (.error err, log)

/-- The source `txnReq.processTransaction`; the result is the pair
`(*RespSend, error)` and the log, or `none` when the decode loop panics or the budget
runs out. -/
def processTransaction {A : Type} (env : Env A) (t : TxnReq) (fuel : Nat) (log : Log) :
    Option (Option RespSend × Option GoError × Log) :=
  match decodePDUs env t.pdus [] log with
  | none => none
  | some (.error err, log) => some (none, some err, log)
  | some (.ok pdus, log) =>
    match processPDUs env t fuel pdus [] log with
    | none => none
    | some (.error err, log) => some (none, some err, log)
    | some (.ok results, log) =>
      some (some { pdus := results }, none, processEDUs env t.edus log)

/-! ## The HTTP handler -/

/-- The JSON bodies `Send` can answer with. -/
inductive JSONBody where
  | notJSON (message : String)
  | badJSON (message : String)
  | internalServerError
  | respSend (resp : Option RespSend)
deriving DecidableEq, Repr

/-- Go `util.JSONResponse`. -/
structure JSONResponse where
  code : Nat
  json : JSONBody
deriving DecidableEq, Repr

/-- Go `http.StatusOK`. -/
def StatusOK : Nat := 200

/-- Go `http.StatusBadRequest`. -/
def StatusBadRequest : Nat := 400

/-- Modelled from the spec: `jsonerror.InternalServerError` of clientapi/jsonerror is
not among the sources; the spec gives its status, 500 on a transient server error. -/
def InternalServerError : JSONResponse := { code := 500, json := JSONBody.internalServerError }

/-- The source `Send`.  `content` is the request body, `origin` the calling server,
`serverName` is `cfg.Matrix.ServerName`. -/
def Send {A : Type} (env : Env A) (content origin txnID serverName : String) (fuel : Nat)
    (log : Log) : Option (JSONResponse × Log) :=
  match env.unmarshalTxn content with
  | .error err =>
    some ({ code := StatusBadRequest
            json := JSONBody.notJSON
              ("The request body could not be decoded into valid JSON. " ++ err.Error) }, log)
  | .ok (pdus, edus) =>
    let t : TxnReq :=
      { pdus := pdus, edus := edus, origin := origin, transactionID := txnID
        destination := serverName }
    match processTransaction env t fuel log with
    | none => none
    | some (resp, none, log) => some ({ code := StatusOK, json := JSONBody.respSend resp }, log)
    | some (_, some err, log) =>
      match err with
      | GoError.roomNotFoundError _ | GoError.unmarshalError _ | GoError.verifySigError _ _ =>
        some ({ code := StatusBadRequest, json := JSONBody.badJSON err.Error }, log)
      | _ => some (InternalServerError, log)

/-! ## Observations on the log -/

/-- The call passes event `e` to the room server: `SendEvents` with `e` among its events,
or `SendEventWithState` for `e` (whatever the call answered). -/
def Call.commits (c : Call) (e : Event) : Bool :=
  match c with
  | Call.sendEvents events _ => decide (e ∈ events.map HeaderedEvent.unwrap)
  | Call.sendEventWithState _ event _ => decide (event.unwrap = e)
  | _ => false

/-- The call is a successful signature verification covering `e`:
`VerifyAllEventSignatures` on a list containing `e`, or `RespState.Check` on a state whose
state or auth events contain `e`, answering `nil`. -/
def Call.verifies (c : Call) (e : Event) : Bool :=
  match c with
  | Call.verifyAllEventSignatures events none => decide (e ∈ events)
  | Call.check state none => decide (e ∈ state.stateEvents ++ state.authEvents)
  | _ => false

/-- The call marks an entry into `processEvent`. -/
def Call.isProcessEvent (c : Call) : Bool :=
  match c with
  | Call.processEvent _ _ => true
  | _ => false

/-- The error types for which `processTransaction` records a per-event error and goes on:
`roomNotFoundError` and `*gomatrixserverlib.NotAllowed`. -/
def GoError.isEventError (err : GoError) : Bool :=
  match err with
  | GoError.roomNotFoundError _ | GoError.notAllowed _ => true
  | _ => false

/-- The error types `Send` answers with 400: `roomNotFoundError`, `unmarshalError`,
`verifySigError`. -/
def GoError.isBadRequest (err : GoError) : Bool :=
  match err with
  | GoError.roomNotFoundError _ | GoError.unmarshalError _ | GoError.verifySigError _ _ => true
  | _ => false

/-! ## Concrete scenarios

A room `r` whose only forward extremity is `X`.  The remote server pushes event `E`,
whose previous event `P` (a child of `X`) is unknown locally. -/

/-- The missing previous event, a child of the forward extremity `X`. -/
def evP : Event := { eventID := "P", roomID := "r", prevEventIDs := ["X"], body := 1 }

/-- The pushed event, a child of `P`. -/
def evE : Event := { eventID := "E", roomID := "r", prevEventIDs := ["P"], body := 2 }

/-- A state event of the room. -/
def evS : Event := { eventID := "S", roomID := "r", prevEventIDs := [], body := 0 }

/-- The gap scenario.  Every raw PDU `"E"` parses to `evE`, every other raw PDU fails to
parse after its fields were decoded, and every signature check passes.  The state engine
does not know the previous events of `E` until `P` has been sent to it; afterwards it
reports the state `[S]`, which allows `E`.  The remote server answers
`/get_missing_events` with `[P]` and `/state_ids` with an empty state, which does not
allow `E`. -/
def gapEnv : Env (List Event) where
  unmarshalTxn := fun c =>
    if c = "bad" then .error (GoError.other "unexpected end of JSON input") else .ok ([c], [])
  unmarshalRoomID := fun _ => .ok "r"
  newEventFromUntrustedJSON := fun pdu _ =>
    if pdu = "E" then .ok evE else .error (GoError.other "bad event")
  failedEventID := fun _ _ => some ""
  unmarshalTyping := fun _ => .error (GoError.other "bad edu")
  stateNeededForAuth := fun _ => []
  newAuthEvents := []
  addEvent := fun a e => .ok (a ++ [e])
  allowed := fun e a =>
    if e.eventID = "E" ∧ a = [] then some (GoError.notAllowed "eventauth: not allowed") else none
  pathOf := fun events _ _ => events
  queryRoomVersionForRoom := fun _ _ => .ok "1"
  queryStateAfterEvents := fun log _ prevs _ =>
    if prevs = ["X"] then
      .ok { roomExists := true, roomVersion := "1", prevEventsExist := true, stateEvents := [] }
    else if Call.sendEvents [evP.headered "1"] none ∈ log then
      .ok { roomExists := true, roomVersion := "1", prevEventsExist := true
            stateEvents := [evS.headered "1"] }
    else
      .ok { roomExists := true, roomVersion := "1", prevEventsExist := false, stateEvents := [] }
  queryEventsByID := fun _ _ => .ok []
  queryLatestEventsAndState := fun _ _ => .ok { latestEvents := [⟨"X"⟩], depth := 5 }
  lookupState := fun _ _ _ _ _ => .error (GoError.other "no state")
  lookupStateIDs := fun _ _ _ _ => .ok { stateEventIDs := [], authEventIDs := [] }
  getEvent := fun _ _ _ => .error (GoError.other "no event")
  lookupMissingEvents := fun _ _ _ _ _ => .ok { events := [evP] }
  verifyAllEventSignatures := fun _ _ => none
  check := fun _ _ => none
  sendEvents := fun _ _ => none
  sendEventWithState := fun _ _ _ => none
  sendTyping := fun _ _ _ _ _ => none

/-- The transaction of the gap scenario: the single PDU `E`. -/
def gapTxn : TxnReq :=
  { pdus := ["E"], edus := [], origin := "remote", transactionID := "t1"
    destination := "local" }

/-- A state engine that knows the previous events of every event and reports the state
`[S]`; everything else as in `gapEnv`. -/
def localEnv : Env (List Event) :=
  { gapEnv with
    queryStateAfterEvents := fun _ _ _ _ =>
      .ok { roomExists := true, roomVersion := "1", prevEventsExist := true
            stateEvents := [evS.headered "1"] } }

/-- A state engine that does not know the room; everything else as in `gapEnv`. -/
def noRoomEnv : Env (List Event) :=
  { gapEnv with
    queryStateAfterEvents := fun _ _ _ _ =>
      .ok { roomExists := false, roomVersion := "1", prevEventsExist := false
            stateEvents := [] } }

/-- A state engine whose state query fails; everything else as in `gapEnv`. -/
def downEnv : Env (List Event) :=
  { gapEnv with
    queryStateAfterEvents := fun _ _ _ _ => .error (GoError.other "database is down") }

/-- A transaction that carries the PDU `E` twice. -/
def dupTxn : TxnReq :=
  { pdus := ["E", "E"], edus := [], origin := "remote", transactionID := "t2"
    destination := "local" }

/-- The call is a commit: `SendEvents` or `SendEventWithState`. -/
def Call.isCommit (c : Call) : Bool :=
  match c with
  | Call.sendEvents _ _ => true
  | Call.sendEventWithState _ _ _ => true
  | _ => false

/-- The transaction is aborted at the decode step with `err`: `processTransaction`
returns `(nil, err)`, and between `log` and the final log `log'` there is no entry into
`processEvent` and no commit. -/
def DecodeAborts {A : Type} (env : Env A) (t : TxnReq) (fuel : Nat) (log : Log)
    (err : GoError) (log' : Log) : Prop :=
  processTransaction env t fuel log = some (none, some err, log') ∧
    ∃ new, log' = log ++ new ∧ ∀ c ∈ new, c.isProcessEvent = false ∧ c.isCommit = false

/-- A transaction whose second PDU does not parse. -/
def badTxn : TxnReq :=
  { pdus := ["E", "Z"], edus := [], origin := "remote", transactionID := "t3"
    destination := "local" }

/-- A remote server that does not answer `/get_missing_events`; everything else as in
`gapEnv`. -/
def offlineEnv : Env (List Event) :=
  { gapEnv with
    lookupMissingEvents := fun _ _ _ _ _ => .error (GoError.other "connection refused") }

/-- The call is neither an entry into `processEvent` nor a commit. -/
def Call.Quiet (c : Call) : Prop := c.isProcessEvent = false ∧ c.isCommit = false

/-- The log `log'` extends `log` by calls that all satisfy `P`. -/
def Extends (P : Call → Prop) (log log' : Log) : Prop :=
  ∃ new, log' = log ++ new ∧ ∀ c ∈ new, P c

/-- The commit `c`, made when the log was `before`, follows a passed authorization check.
For `SendEvents` the call carries one event `e`, the last entry of `before` is the
answer of `QueryStateAfterEvents` for the previous events of `e`, and
`checkAllowedByState` accepts `e` against the state of that answer.  For
`SendEventWithState`, `checkAllowedByState` accepts the event against the state events
of the `RespState` sent with it.  Other calls are not restricted. -/
def CommitAuthorized {A : Type} (env : Env A) (before : Log) (c : Call) : Prop :=
  match c with
  | Call.sendEvents events _ =>
    ∃ e stateResp pre, events = [e.headered stateResp.roomVersion] ∧
      before = pre ++ [Call.queryStateAfterEvents e.roomID e.prevEventIDs
        (env.stateNeededForAuth [e]) (.ok stateResp)] ∧
      env.queryStateAfterEvents pre e.roomID e.prevEventIDs (env.stateNeededForAuth [e]) =
        .ok stateResp ∧
      checkAllowedByState env e (stateResp.stateEvents.map HeaderedEvent.unwrap) = none
  | Call.sendEventWithState state event _ =>
    checkAllowedByState env event.unwrap state.stateEvents = none
  | _ => True

/-- The log `log'` extends `log`, and every commit among the new calls follows a passed
authorization check. -/
def AuthorizedRun {A : Type} (env : Env A) (log log' : Log) : Prop :=
  ∃ new, log' = log ++ new ∧
    ∀ pre c post, new = pre ++ c :: post → CommitAuthorized env (log ++ pre) c

/-- The call belongs to the `/state_ids` lookup: `/state_ids`, the local bulk query,
`/event`, a signature check or `RespState.Check`. -/
def Call.isStateIDsStep (c : Call) : Bool :=
  match c with
  | Call.lookupStateIDs _ _ _ _ => true
  | Call.queryEventsByID _ _ => true
  | Call.getEvent _ _ _ => true
  | Call.verifyAllEventSignatures _ _ => true
  | Call.check _ _ => true
  | _ => false

/-- The call belongs to the `/state` lookup: `/state` or `RespState.Check`. -/
def Call.isStateStep (c : Call) : Bool :=
  match c with
  | Call.lookupState _ _ _ _ _ => true
  | Call.check _ _ => true
  | _ => false

/-- A remote server that answers neither `/get_missing_events` nor `/state_ids` nor
`/state`; everything else as in `gapEnv`. -/
def noStateEnv : Env (List Event) :=
  { offlineEnv with
    lookupStateIDs := fun _ _ _ _ => .error (GoError.other "no state ids") }

/-- The call belongs to the `/state_ids` lookup, as a proposition. -/
def Call.StateIDsStep (c : Call) : Prop := c.isStateIDsStep = true

/-- The call belongs to the `/state` lookup, as a proposition. -/
def Call.StateStep (c : Call) : Prop := c.isStateStep = true

/-! ## The public-rooms output consumer (publicroomsapi/consumers/roomserver.go) -/

/-- Modelled from the spec: `api.OutputNewRoomEvent` is not among the sources; the spec
gives the three fields the consumer reads, `Event`, `AddsStateEventIDs` and
`RemovesStateEventIDs`.  The event is `none` when its fields were not decoded; the
accessors `EventID()`, `RoomID()` and `Type()` panic on such an event. -/
structure OutputNewRoomEvent where
  event : Option HeaderedEvent
  addsStateEventIDs : List String
  removesStateEventIDs : List String
deriving DecidableEq, Repr

/-- Modelled from the spec: `api.OutputEvent` is not among the sources; by the spec each
message carries an `OutputEvent` with a type and, for the type `NewRoomEvent`, its
`NewRoomEvent` content.  The consumer reaches the content through a pointer
(`output.NewRoomEvent.Event`), which is `none` (nil) when the message has no content. -/
structure OutputEvent where
  type : String
  newRoomEvent : Option OutputNewRoomEvent
deriving DecidableEq, Repr

/-- One call of the consumer to a collaborator, with its request and its answer. -/
inductive ConsumerCall where
  | queryEventsByID (eventIDs : List String) (res : Except GoError (List HeaderedEvent))
  | updateRoomFromEvents (eventsToAdd eventsToRemove : List Event) (res : Option GoError)
deriving DecidableEq

/-- The collaborators of `OutputRoomEventConsumer`: the JSON decoder, the constant
`api.OutputTypeNewRoomEvent`, the room-state engine and the public-rooms storage.  The
stateful ones receive the calls made so far. -/
structure ConsumerEnv where
  unmarshalOutputEvent : String → Except GoError OutputEvent
  outputTypeNewRoomEvent : String
  queryEventsByID : List ConsumerCall → List String → Except GoError (List HeaderedEvent)
  updateRoomFromEvents : List ConsumerCall → List Event → List Event → Option GoError

/-- The source `OutputRoomEventConsumer.onMessage`; `value` is `msg.Value`.  The result
is the returned error and the log, or `none` when the code panics: at line 81 on the nil
pointer of a message without content, or in the accessors of lines 83-85 on an event
whose fields were not decoded. -/
def onMessage (env : ConsumerEnv) (value : String) (log : List ConsumerCall) :
    Option (Option GoError × List ConsumerCall) :=
  match env.unmarshalOutputEvent value with
  | .error _ => some (none, log)
  | .ok output =>
    if output.type ≠ env.outputTypeNewRoomEvent then
      some (none, log)
    else
      match output.newRoomEvent with
      | none => none
      | some newRoomEvent =>
        match newRoomEvent.event with
        | none => none
        | some _ =>
          let addQuery := env.queryEventsByID log newRoomEvent.addsStateEventIDs
          let log := log ++
            [ConsumerCall.queryEventsByID newRoomEvent.addsStateEventIDs addQuery]
          match addQuery with
          | .error err => some (some err, log)
          | .ok addQueryRes =>
            let remQuery := env.queryEventsByID log newRoomEvent.removesStateEventIDs
            let log := log ++
              [ConsumerCall.queryEventsByID newRoomEvent.removesStateEventIDs remQuery]
            match remQuery with
            | .error err => some (some err, log)
            | .ok remQueryRes =>
              let addQueryEvents := addQueryRes.map HeaderedEvent.unwrap
              let remQueryEvents := remQueryRes.map HeaderedEvent.unwrap
              let r := env.updateRoomFromEvents log addQueryEvents remQueryEvents
              some (r,
                log ++ [ConsumerCall.updateRoomFromEvents addQueryEvents remQueryEvents r])

/-- A consumer environment whose decoder reads every message as one of type
`new_room_event` without content; the queries and the update succeed. -/
def bareEnv : ConsumerEnv where
  unmarshalOutputEvent := fun _ => .ok { type := "new_room_event", newRoomEvent := none }
  outputTypeNewRoomEvent := "new_room_event"
  queryEventsByID := fun _ _ => .ok []
  updateRoomFromEvents := fun _ _ _ => none

/-! ## Reachability through a bag of events -/

/-- The last event of the bag that carries the id, if any: the event `findPath` keeps for
the id in `eventIDMap`. -/
def lastWithID : List Event → String → Option Event
  | [], _ => none
  | ev :: rest, id =>
    match lastWithID rest id with
    | some ev' => some ev'
    | none => if ev.eventID = id then some ev else none

/-- A chain `id_0, ..., id_k` from `id_0` to a target: `id_k` is in `toAnyEventIDs`, and for
`i < k` the event that `look` gives for `id_i` has `id_{i+1}` among its previous events. -/
inductive Reaches (look : String → Option Event) (toAnyEventIDs : List String) :
    String → Prop where
  | target {id : String} : id ∈ toAnyEventIDs → Reaches look toAnyEventIDs id
  | step {a b : String} {ev : Event} : look a = some ev → b ∈ ev.prevEventIDs →
      Reaches look toAnyEventIDs b → Reaches look toAnyEventIDs a

/-- The chain of the specification: `id_k` is in `toAnyEventIDs`, and for `i < k` some
event of the bag has the id `id_i` and has `id_{i+1}` among its previous events. -/
inductive ChainToTarget (events : List Event) (toAnyEventIDs : List String) :
    String → Prop where
  | target {id : String} : id ∈ toAnyEventIDs → ChainToTarget events toAnyEventIDs id
  | step {a b : String} {ev : Event} : ev ∈ events → ev.eventID = a →
      b ∈ ev.prevEventIDs → ChainToTarget events toAnyEventIDs b →
      ChainToTarget events toAnyEventIDs a

/-- The ids still to be pushed: the lengths of the previous-event lists of the map
entries whose key has not been seen. -/
def pendingWeight (eventIDMap : List (String × Event)) (seenOnStack : List String) : Nat :=
  match eventIDMap with
  | [] => 0
  | (k, ev) :: rest =>
    (if k ∈ seenOnStack then 0 else ev.prevEventIDs.length) + pendingWeight rest seenOnStack

/-- A bag with two events of the same id `A`: the first has the target `X` as previous
event, the second has none. -/
def dupBag : List Event :=
  [{ eventID := "A", roomID := "r", prevEventIDs := ["X"], body := 1 },
   { eventID := "A", roomID := "r", prevEventIDs := [], body := 2 }]

/-- A start event whose previous event is `A`. -/
def evFromA : Event := { eventID := "F", roomID := "r", prevEventIDs := ["A"], body := 3 }

/-! ## Scenarios without termination -/

/-- The run `run`, indexed by its step budget, returns for no budget. -/
def NeverReturns {α : Type} (run : Nat → Option α) : Prop := ∀ fuel, run fuel = none

/-- An event of an endless chain: its previous events are the next event of the chain,
whose id has one more `+`, and the forward extremity `X`. -/
def chainEvent (id : String) : Event :=
  { eventID := id, roomID := "r", prevEventIDs := [id ++ "+", "X"], body := 0 }

/-- A remote server that answers `/get_missing_events` for an event of the chain with the
next event of the chain, which the state engine does not know either; everything else as
in `gapEnv`. -/
def chainEnv : Env (List Event) :=
  { gapEnv with
    queryStateAfterEvents := fun _ _ _ _ =>
      .ok { roomExists := true, roomVersion := "1", prevEventsExist := false
            stateEvents := [] }
    lookupMissingEvents := fun _ _ _ missing _ =>
      match missing.latestEvents with
      | [id] => .ok { events := [chainEvent (id ++ "+")] }
      | _ => .error (GoError.other "bad request") }

/-- The retry scenario.  The remote server has no missing events to offer, does not
answer `/state_ids` and answers `/state` with the state `[S]`.  The authorization check
reports for `E` that the auth event `S` is missing, and accepts every other event;
everything else as in `gapEnv`. -/
def retryEnv : Env (List Event) :=
  { gapEnv with
    allowed := fun e _ =>
      if e.eventID = "E" then some (GoError.missingAuthEventError "S") else none
    lookupMissingEvents := fun _ _ _ _ _ => .ok { events := [] }
    lookupStateIDs := fun _ _ _ _ => .error (GoError.other "no state ids")
    lookupState := fun _ _ _ _ _ => .ok { stateEvents := [evS], authEvents := [] } }

/-- The call marks the start of a nested step: an entry into `processEvent`, or the
local query that opens every run of `getMissingEvents` (and so of
`processEventWithMissingState`). -/
def Call.isEntry (c : Call) : Bool :=
  match c with
  | Call.processEvent _ _ => true
  | Call.queryLatestEventsAndState _ _ => true
  | _ => false

/-- The call does not start a nested step. -/
def Call.NoEntry (c : Call) : Prop := c.isEntry = false

/-- An event library that leaves the fields of an event undecoded when the parse fails,
so that `EventID()` on the failed event panics; everything else as in `gapEnv`. -/
def panicEnv : Env (List Event) :=
  { gapEnv with failedEventID := fun _ _ => none }

/-- The state lookup of `processEventWithMissingState` (lines 314-324): the `/state_ids`
lookup, and the `/state` lookup when that fails. -/
def fetchState {A : Type} (env : Env A) (t : TxnReq) (e : Event) (roomVersion : String)
    (log : Log) : Except GoError RespState × Log :=
  match lookupMissingStateViaStateIDs env t e roomVersion log with
  | (.ok respState, log) => (.ok respState, log)
  | (.error _, log) => lookupMissingStateViaState env t e roomVersion log

/-- As the retry scenario, but the authorization check reports for `E` the missing auth
event `Q`, which is not among the state events `[S]` that `/state` returns. -/
def qEnv : Env (List Event) :=
  { retryEnv with
    allowed := fun e _ =>
      if e.eventID = "E" then some (GoError.missingAuthEventError "Q") else none }

/-! # Theorems -/

/-! ## Maps -/

theorem mem_mapKeys_mapSet {V : Type} (m : List (String × V)) (k : String) (v : V)
    (k' : String) : k' ∈ mapKeys (mapSet m k v) ↔ k' = k ∨ k' ∈ mapKeys m := by
  induction m with
  | nil => simp [mapSet, mapKeys]
  | cons hd tl ih =>
    obtain ⟨a, b⟩ := hd
    unfold mapSet
    by_cases h : a = k
    · subst h
      simp [mapKeys]
    · simp only [h, if_false]
      simp only [mapKeys, List.map_cons, List.mem_cons] at ih ⊢
      rw [ih]
      tauto

theorem nodup_mapKeys_mapSet {V : Type} (m : List (String × V)) (k : String) (v : V)
    (h : (mapKeys m).Nodup) : (mapKeys (mapSet m k v)).Nodup := by
  induction m with
  | nil => simp [mapSet, mapKeys]
  | cons hd tl ih =>
    obtain ⟨a, b⟩ := hd
    unfold mapSet
    by_cases hk : a = k
    · subst hk
      simpa [mapKeys] using h
    · simp only [hk, if_false]
      have h' : a ∉ mapKeys tl ∧ (mapKeys tl).Nodup := by simpa [mapKeys] using h
      have hmem := mem_mapKeys_mapSet tl k v a
      have : (mapKeys ((a, b) :: mapSet tl k v)) = a :: mapKeys (mapSet tl k v) := rfl
      rw [this, List.nodup_cons]
      refine ⟨?_, ih h'.2⟩
      rw [hmem]
      rintro (h1 | h1)
      · exact hk h1
      · exact h'.1 h1

theorem mapGet_isSome_iff {V : Type} (m : List (String × V)) (k : String) :
    (mapGet m k).isSome = true ↔ k ∈ mapKeys m := by
  induction m with
  | nil => simp [mapGet, mapKeys]
  | cons hd tl ih =>
    obtain ⟨a, b⟩ := hd
    unfold mapGet
    by_cases h : a = k
    · subst h
      simp [mapKeys]
    · simp only [h, if_false]
      rw [ih]
      simp only [mapKeys, List.map_cons, List.mem_cons]
      constructor
      · intro h1; exact Or.inr h1
      · rintro (h1 | h1)
        · exact absurd h1.symm h
        · exact h1

theorem mapGet_mapSet_self {V : Type} (m : List (String × V)) (k : String) (v : V) :
    mapGet (mapSet m k v) k = some v := by
  induction m with
  | nil => simp [mapSet, mapGet]
  | cons hd tl ih =>
    obtain ⟨a, b⟩ := hd
    unfold mapSet
    by_cases h : a = k
    · subst h
      simp [mapGet]
    · simp only [h, if_false]
      unfold mapGet
      simp only [h, if_false]
      exact ih

theorem mapGet_mapSet {V : Type} (m : List (String × V)) (k : String) (v : V) (id : String) :
    mapGet (mapSet m k v) id = if k = id then some v else mapGet m id := by
  induction m with
  | nil => simp [mapSet, mapGet]
  | cons hd tl ih =>
    obtain ⟨a, b⟩ := hd
    unfold mapSet
    by_cases h : a = k
    · subst h
      by_cases h2 : a = id
      · simp [mapGet, h2]
      · simp [mapGet, h2]
    · simp only [h, if_false]
      unfold mapGet
      by_cases h2 : a = id
      · subst h2
        simp [Ne.symm h]
      · simp only [h2, if_false]
        exact ih

/-! ## The decode loop -/

theorem decodePDUs_append {A : Type} (env : Env A) (pre rest : List String)
    (pdus : List HeaderedEvent) (log : Log) :
    decodePDUs env (pre ++ rest) pdus log =
      match decodePDUs env pre pdus log with
      | some (.ok pdus0, log0) => decodePDUs env rest pdus0 log0
      | some (.error err, log0) => some (.error err, log0)
      | none => none := by
  induction pre generalizing pdus log with
  | nil => simp [decodePDUs]
  | cons p tl ih =>
    simp only [List.cons_append, decodePDUs]
    cases env.unmarshalRoomID p with
    | error err => rfl
    | ok roomID =>
      simp only
      cases env.queryRoomVersionForRoom log roomID with
      | error err => rfl
      | ok roomVersion =>
        simp only
        cases env.newEventFromUntrustedJSON p roomVersion with
        | error err =>
          simp only
          cases env.failedEventID p roomVersion <;> rfl
        | ok event =>
          simp only
          cases env.verifyAllEventSignatures
            (log ++ [Call.queryRoomVersionForRoom roomID (.ok roomVersion)]) [event] with
          | some err => rfl
          | none => exact ih _ _

theorem decodePDUs_length {A : Type} (env : Env A) (raws : List String)
    (pdus : List HeaderedEvent) (log : Log) (pdus' : List HeaderedEvent) (log' : Log)
    (h : decodePDUs env raws pdus log = some (.ok pdus', log')) :
    pdus'.length = pdus.length + raws.length := by
  induction raws generalizing pdus log with
  | nil =>
    simp only [decodePDUs, Option.some.injEq, Prod.mk.injEq, Except.ok.injEq] at h
    simp [h.1]
  | cons p tl ih =>
    simp only [decodePDUs] at h
    split at h
    · simp at h
    · split at h
      · simp at h
      · split at h
        · split at h <;> simp at h
        · split at h
          · simp at h
          · have := ih _ _ h
            simp only [List.length_append, List.length_cons, List.length_nil] at this ⊢
            omega

/-- The decode loop only asks for room versions and verifies signatures: it never enters
`processEvent` and never commits. -/
theorem decodePDUs_log {A : Type} (env : Env A) (raws : List String)
    (pdus : List HeaderedEvent) (log : Log) (r : Except GoError (List HeaderedEvent))
    (log' : Log) (h : decodePDUs env raws pdus log = some (r, log')) :
    ∃ new, log' = log ++ new ∧
      ∀ c ∈ new, c.isProcessEvent = false ∧ c.isCommit = false := by
  induction raws generalizing pdus log with
  | nil =>
    simp only [decodePDUs, Option.some.injEq, Prod.mk.injEq] at h
    exact ⟨[], by simp [h.2], by simp⟩
  | cons p tl ih =>
    simp only [decodePDUs] at h
    split at h
    · simp only [Option.some.injEq, Prod.mk.injEq] at h
      exact ⟨[], by simp [h.2], by simp⟩
    · split at h
      · simp only [Option.some.injEq, Prod.mk.injEq] at h
        exact ⟨[_], h.2.symm, by simp [Call.isProcessEvent, Call.isCommit]⟩
      · split at h
        · split at h
          · simp at h
          · simp only [Option.some.injEq, Prod.mk.injEq] at h
            exact ⟨[_], h.2.symm, by simp [Call.isProcessEvent, Call.isCommit]⟩
        · split at h
          · simp only [Option.some.injEq, Prod.mk.injEq] at h
            refine ⟨_, h.2.symm.trans (List.append_assoc _ _ _), ?_⟩
            simp [Call.isProcessEvent, Call.isCommit]
          · obtain ⟨new, hnew, hall⟩ := ih _ _ h
            rw [List.append_assoc, List.append_assoc] at hnew
            refine ⟨_, hnew, ?_⟩
            intro c hc
            simp only [List.mem_append, List.mem_singleton] at hc
            rcases hc with rfl | rfl | hc
            · simp [Call.isProcessEvent, Call.isCommit]
            · simp [Call.isProcessEvent, Call.isCommit]
            · exact hall c hc

/-! ## The processing loop -/

theorem processPDUs_append {A : Type} (env : Env A) (t : TxnReq) (fuel : Nat)
    (pre rest : List HeaderedEvent) (results : List (String × PDUResult)) (log : Log) :
    processPDUs env t fuel (pre ++ rest) results log =
      match processPDUs env t fuel pre results log with
      | some (.ok results1, log1) => processPDUs env t fuel rest results1 log1
      | some (.error err, log1) => some (.error err, log1)
      | none => none := by
  induction pre generalizing results log with
  | nil => simp [processPDUs]
  | cons e tl ih =>
    simp only [List.cons_append, processPDUs]
    cases processEvent env t fuel e.unwrap true log with
    | none => rfl
    | some r =>
      obtain ⟨oerr, log1⟩ := r
      cases oerr with
      | none => exact ih _ _
      | some err =>
        cases err <;> first | exact ih _ _ | rfl

theorem processPDUs_cons_eventError {A : Type} (env : Env A) (t : TxnReq) (fuel : Nat)
    (e : HeaderedEvent) (rest : List HeaderedEvent) (results : List (String × PDUResult))
    (log log1 : Log) (err : GoError)
    (hev : processEvent env t fuel e.unwrap true log = some (some err, log1))
    (herr : err.isEventError = true) :
    processPDUs env t fuel (e :: rest) results log =
      processPDUs env t fuel rest (mapSet results e.eventID { error := err.Error }) log1 := by
  simp only [processPDUs, hev]
  cases err <;> first | rfl | simp [GoError.isEventError] at herr

theorem processPDUs_cons_abort {A : Type} (env : Env A) (t : TxnReq) (fuel : Nat)
    (e : HeaderedEvent) (rest : List HeaderedEvent) (results : List (String × PDUResult))
    (log log1 : Log) (err : GoError)
    (hev : processEvent env t fuel e.unwrap true log = some (some err, log1))
    (herr : err.isEventError = false) :
    processPDUs env t fuel (e :: rest) results log = some (.error err, log1) := by
  simp only [processPDUs, hev]
  cases err <;> first | rfl | simp [GoError.isEventError] at herr

/-- The keys of the result map after the loop: the keys before and the ids of the events
processed, without repetition. -/
theorem processPDUs_keys {A : Type} (env : Env A) (t : TxnReq) (fuel : Nat)
    (pdus : List HeaderedEvent) (results results' : List (String × PDUResult))
    (log log' : Log)
    (h : processPDUs env t fuel pdus results log = some (.ok results', log'))
    (hnd : (mapKeys results).Nodup) :
    (mapKeys results').Nodup ∧
      ∀ k, k ∈ mapKeys results' ↔ k ∈ mapKeys results ∨ k ∈ pdus.map HeaderedEvent.eventID := by
  induction pdus generalizing results log with
  | nil =>
    simp only [processPDUs, Option.some.injEq, Prod.mk.injEq, Except.ok.injEq] at h
    rw [← h.1]
    exact ⟨hnd, by simp⟩
  | cons e tl ih =>
    simp only [processPDUs] at h
    split at h
    · simp at h
    · obtain ⟨h1, h2⟩ := ih _ _ h (nodup_mapKeys_mapSet _ _ _ hnd)
      refine ⟨h1, fun k => ?_⟩
      rw [h2, mem_mapKeys_mapSet]
      simp only [List.map_cons, List.mem_cons]
      tauto
    · split at h
      · obtain ⟨h1, h2⟩ := ih _ _ h (nodup_mapKeys_mapSet _ _ _ hnd)
        refine ⟨h1, fun k => ?_⟩
        rw [h2, mem_mapKeys_mapSet]
        simp only [List.map_cons, List.mem_cons]
        tauto
      · obtain ⟨h1, h2⟩ := ih _ _ h (nodup_mapKeys_mapSet _ _ _ hnd)
        refine ⟨h1, fun k => ?_⟩
        rw [h2, mem_mapKeys_mapSet]
        simp only [List.map_cons, List.mem_cons]
        tauto
      · simp at h

/-! ## C1: the entries of the result map -/

/-- C1 (counterexample): a transaction that carries the same PDU twice is answered with
a result map of one entry, not two: the number of entries differs from the number of
PDUs of the transaction. -/
theorem processTransaction_duplicate_ids_one_entry :
    ∃ resp log, processTransaction localEnv dupTxn 1 [] = some (some resp, none, log) ∧
      dupTxn.pdus.length = 2 ∧ resp.pdus.length = 1 :=
  ⟨_, _, rfl, rfl, rfl⟩

/-- C1 (amended): when `processTransaction` returns a response, every PDU of the
transaction was decoded, every decoded PDU's event id is a key of the result map, every
key is the event id of a PDU, and the map has one entry per distinct event id: the number
of entries is the number of distinct event ids, which is the number of PDUs when the
event ids are pairwise different. -/
theorem processTransaction_results_per_event_id {A : Type} (env : Env A) (t : TxnReq)
    (fuel : Nat) (log : Log) (resp : RespSend) (log' : Log)
    (h : processTransaction env t fuel log = some (some resp, none, log')) :
    ∃ pdus log0, decodePDUs env t.pdus [] log = some (.ok pdus, log0) ∧
      pdus.length = t.pdus.length ∧
      (∀ e ∈ pdus, (mapGet resp.pdus e.eventID).isSome = true) ∧
      (∀ k ∈ mapKeys resp.pdus, ∃ e ∈ pdus, e.eventID = k) ∧
      resp.pdus.length = (pdus.map HeaderedEvent.eventID).dedup.length ∧
      ((pdus.map HeaderedEvent.eventID).Nodup → resp.pdus.length = t.pdus.length) := by
  unfold processTransaction at h
  split at h
  · simp at h
  · simp at h
  · rename_i pdus log0 hdec
    split at h
    · simp at h
    · simp at h
    · rename_i results log1 hproc
      simp only [Option.some.injEq, Prod.mk.injEq, true_and] at h
      obtain ⟨hresp, -⟩ := h
      subst hresp
      have hlen := decodePDUs_length env t.pdus [] log pdus log0 hdec
      simp only [List.length_nil, Nat.zero_add] at hlen
      obtain ⟨hnd, hkeys⟩ := processPDUs_keys env t fuel pdus [] results log0 log1 hproc
        (by simp [mapKeys])
      have hkeys' : ∀ k, k ∈ mapKeys results ↔ k ∈ pdus.map HeaderedEvent.eventID := by
        intro k
        rw [hkeys k]
        simp [mapKeys]
      have hcount : results.length = (pdus.map HeaderedEvent.eventID).dedup.length := by
        have hperm : (mapKeys results).Perm (pdus.map HeaderedEvent.eventID).dedup := by
          rw [List.perm_ext_iff_of_nodup hnd (List.nodup_dedup _)]
          intro k
          rw [hkeys' k, List.mem_dedup]
        have := hperm.length_eq
        simpa [mapKeys] using this
      refine ⟨pdus, log0, hdec, hlen, ?_, ?_, hcount, ?_⟩
      · intro e he
        rw [mapGet_isSome_iff, hkeys']
        exact List.mem_map_of_mem _ he
      · intro k hk
        have := (hkeys' k).1 hk
        simpa using this
      · intro hnodup
        rw [hcount, hnodup.dedup, List.length_map, hlen]

/-- C1 (witness): the gap transaction is answered with a response, and its single PDU
`E` is the single key. -/
theorem processTransaction_results_per_event_id_witness :
    ∃ log', processTransaction gapEnv gapTxn 5 [] =
        some (some { pdus := [("E", { error := "eventauth: not allowed" })] }, none, log') ∧
      ∃ pdus log0, decodePDUs gapEnv gapTxn.pdus [] [] = some (.ok pdus, log0) ∧
        pdus.length = 1 :=
  ⟨_, rfl,
    (processTransaction_results_per_event_id gapEnv gapTxn 5 [] _ _ rfl).elim
      fun pdus h => h.elim fun log0 h => ⟨pdus, log0, h.1, h.2.1⟩⟩

/-! ## C2: event errors are recorded, other errors abort -/

/-- The loop leaves the entry of an id alone when no PDU it processes has that id. -/
theorem processPDUs_mapGet_of_ne {A : Type} (env : Env A) (t : TxnReq) (fuel : Nat)
    (pdus : List HeaderedEvent) (results results' : List (String × PDUResult))
    (log log' : Log) (k : String)
    (h : processPDUs env t fuel pdus results log = some (.ok results', log'))
    (hne : ∀ e' ∈ pdus, e'.eventID ≠ k) : mapGet results' k = mapGet results k := by
  induction pdus generalizing results log with
  | nil =>
    simp only [processPDUs, Option.some.injEq, Prod.mk.injEq, Except.ok.injEq] at h
    rw [← h.1]
  | cons e tl ih =>
    have hk : e.eventID ≠ k := hne e (List.mem_cons_self _ _)
    have htl : ∀ e' ∈ tl, e'.eventID ≠ k := fun e' he' => hne e' (List.mem_cons_of_mem _ he')
    simp only [processPDUs] at h
    split at h
    · simp at h
    · rw [ih _ _ h htl, mapGet_mapSet, if_neg hk]
    · split at h
      · rw [ih _ _ h htl, mapGet_mapSet, if_neg hk]
      · rw [ih _ _ h htl, mapGet_mapSet, if_neg hk]
      · simp at h

/-- One round of the loop, spelled out: `processEvent` is called for `e` on the current
log, a nil result and an event error store an entry under the id of `e` and go on, any
other error ends the loop. -/
theorem processPDUs_cons {A : Type} (env : Env A) (t : TxnReq) (fuel : Nat)
    (e : HeaderedEvent) (rest : List HeaderedEvent) (results : List (String × PDUResult))
    (log : Log) :
    processPDUs env t fuel (e :: rest) results log =
      match processEvent env t fuel e.unwrap true log with
      | none => none
      | some (none, log1) =>
        processPDUs env t fuel rest (mapSet results e.eventID { error := "" }) log1
      | some (some err, log1) =>
        if err.isEventError = true then
          processPDUs env t fuel rest (mapSet results e.eventID { error := err.Error }) log1
        else some (.error err, log1) := by
  simp only [processPDUs]
  cases processEvent env t fuel e.unwrap true log with
  | none => rfl
  | some r =>
    obtain ⟨oerr, log1⟩ := r
    cases oerr with
    | none => rfl
    | some err => cases err <;> rfl

/-- C2: in the processing loop of `processTransaction`, when the loop has reached the
parsed PDU `e` (after the PDUs `pre`, with result map `results` and log `log`) and
`processEvent` returns the error `err` for it:
* if `err` is a `roomNotFoundError` or a `*NotAllowed`, the loop through `e` ends with
  the result map in which `{error: err.Error()}` is stored under the id of `e`; the loop
  goes on from there, calling `processEvent` for the next PDU on the log `processEvent`
  left for `e`; and the entry is in the final result map and in the response of
  `processTransaction`, unless a later PDU of the transaction has the same id;
* otherwise the loop stops with `err`, and `processTransaction` returns `(nil, err)` with
  the log as `processEvent` left it for `e`: no later PDU is processed. -/
theorem processTransaction_event_error_or_abort {A : Type} (env : Env A) (t : TxnReq)
    (fuel : Nat) (pre : List HeaderedEvent) (e : HeaderedEvent) (rest : List HeaderedEvent)
    (results0 results : List (String × PDUResult)) (log0 log log1 : Log) (err : GoError)
    (hpre : processPDUs env t fuel pre results0 log0 = some (.ok results, log))
    (hev : processEvent env t fuel e.unwrap true log = some (some err, log1)) :
    (err.isEventError = true →
      processPDUs env t fuel (pre ++ [e]) results0 log0 =
          some (.ok (mapSet results e.eventID { error := err.Error }), log1) ∧
        mapGet (mapSet results e.eventID { error := err.Error }) e.eventID =
          some { error := err.Error } ∧
        processPDUs env t fuel (pre ++ e :: rest) results0 log0 =
          processPDUs env t fuel rest (mapSet results e.eventID { error := err.Error }) log1 ∧
        (∀ e2 rest2, rest = e2 :: rest2 →
          processPDUs env t fuel (pre ++ e :: rest) results0 log0 =
            match processEvent env t fuel e2.unwrap true log1 with
            | none => none
            | some (none, log2) =>
              processPDUs env t fuel rest2
                (mapSet (mapSet results e.eventID { error := err.Error }) e2.eventID
                  { error := "" }) log2
            | some (some err2, log2) =>
              if err2.isEventError = true then
                processPDUs env t fuel rest2
                  (mapSet (mapSet results e.eventID { error := err.Error }) e2.eventID
                    { error := err2.Error }) log2
              else some (.error err2, log2)) ∧
        (∀ results' log', (∀ e' ∈ rest, e'.eventID ≠ e.eventID) →
          processPDUs env t fuel (pre ++ e :: rest) results0 log0 =
            some (.ok results', log') →
          mapGet results' e.eventID = some { error := err.Error }) ∧
        (∀ logA resp log', results0 = [] → (∀ e' ∈ rest, e'.eventID ≠ e.eventID) →
          decodePDUs env t.pdus [] logA = some (.ok (pre ++ e :: rest), log0) →
          processTransaction env t fuel logA = some (some resp, none, log') →
          mapGet resp.pdus e.eventID = some { error := err.Error })) ∧
    (err.isEventError = false →
      processPDUs env t fuel (pre ++ [e]) results0 log0 = some (.error err, log1) ∧
        processPDUs env t fuel (pre ++ e :: rest) results0 log0 = some (.error err, log1) ∧
        ∀ logA, results0 = [] →
          decodePDUs env t.pdus [] logA = some (.ok (pre ++ e :: rest), log0) →
          processTransaction env t fuel logA = some (none, some err, log1)) := by
  constructor
  · intro herr
    have hcont : ∀ l, processPDUs env t fuel (pre ++ e :: l) results0 log0 =
        processPDUs env t fuel l (mapSet results e.eventID { error := err.Error }) log1 := by
      intro l
      rw [processPDUs_append, hpre]
      exact processPDUs_cons_eventError env t fuel e l results log log1 err hev herr
    have hfinal : ∀ results' log', (∀ e' ∈ rest, e'.eventID ≠ e.eventID) →
        processPDUs env t fuel (pre ++ e :: rest) results0 log0 = some (.ok results', log') →
        mapGet results' e.eventID = some { error := err.Error } := by
      intro results' log' hne h
      rw [hcont] at h
      rw [processPDUs_mapGet_of_ne env t fuel rest _ results' log1 log' e.eventID h hne]
      exact mapGet_mapSet_self _ _ _
    refine ⟨?_, mapGet_mapSet_self _ _ _, hcont rest, ?_, hfinal, ?_⟩
    · rw [hcont []]
      simp [processPDUs]
    · intro e2 rest2 hrest
      rw [hcont rest, hrest, processPDUs_cons]
    · intro logA resp log' h0 hne hdec hpt
      subst h0
      unfold processTransaction at hpt
      rw [hdec] at hpt
      simp only at hpt
      split at hpt
      · simp at hpt
      · simp at hpt
      · rename_i results' log2 hloop
        simp only [Option.some.injEq, Prod.mk.injEq, true_and] at hpt
        rw [← hpt.1]
        exact hfinal results' log2 hne hloop
  · intro herr
    have hloop : ∀ l, processPDUs env t fuel (pre ++ e :: l) results0 log0 =
        some (.error err, log1) := by
      intro l
      rw [processPDUs_append, hpre]
      exact processPDUs_cons_abort env t fuel e l results log log1 err hev herr
    refine ⟨hloop [], hloop rest, ?_⟩
    intro logA h0 hdec
    subst h0
    unfold processTransaction
    rw [hdec]
    simp only [hloop rest]

/-- C2 (witness): with a state engine that does not know the room, the loop through the
PDU `E` ends with the entry of its `roomNotFoundError` stored under `E`. -/
theorem processTransaction_event_error_or_abort_witness :
    processPDUs noRoomEnv dupTxn 1 ([] ++ [evE.headered "1"]) [] [] =
        some (.ok (mapSet [] (evE.headered "1").eventID
            (PDUResult.mk (GoError.roomNotFoundError "r").Error)),
          [Call.processEvent evE true,
           Call.queryStateAfterEvents "r" ["P"] []
             (.ok { roomExists := false, roomVersion := "1", prevEventsExist := false
                    stateEvents := [] })]) ∧
      mapGet (mapSet [] (evE.headered "1").eventID
          (PDUResult.mk (GoError.roomNotFoundError "r").Error)) (evE.headered "1").eventID =
        some { error := "room \"r\" not found" } :=
  have h := (processTransaction_event_error_or_abort noRoomEnv dupTxn 1 [] (evE.headered "1")
    [evE.headered "1"] [] [] [] [] _ (GoError.roomNotFoundError "r") rfl rfl).1 rfl
  ⟨h.1, h.2.1⟩

/-! ## C3, C4, C10: the gap scenario -/

/-- C3 (failing input): in the gap scenario the event `P`, obtained from
`/get_missing_events`, is passed to `SendEvents` although no signature verification
covering `P` happens anywhere in the run. -/
theorem processTransaction_commits_unverified_missing_event :
    ∃ resp log, processTransaction gapEnv gapTxn 5 [] = some (resp, none, log) ∧
      Call.sendEvents [evP.headered "1"] none ∈ log ∧
      (log.any fun c => c.commits evP) = true ∧
      (log.any fun c => c.verifies evP) = false ∧
      (log.any fun c => c.verifies evE) = true :=
  ⟨_, _, rfl, by decide, by decide, by decide, by decide⟩

/-- C4 (failing input): in the gap scenario the response carries an error for `E`
although `SendEvents` was called for `E` during the transaction: `getMissingEvents`
re-processes `E`, which commits it, and the authorization check against the fetched
state then rejects it. -/
theorem processTransaction_error_entry_after_commit :
    ∃ log, processTransaction gapEnv gapTxn 5 [] =
        some (some { pdus := [("E", { error := "eventauth: not allowed" })] }, none, log) ∧
      Call.sendEvents [evE.headered "1"] none ∈ log ∧
      (log.any fun c => c.commits evE) = true :=
  ⟨_, rfl, by decide, by decide⟩

/-- The last statement of `getMissingEvents` is `return false, nil`: `ok` is never
true. -/
theorem getMissingEvents_ok_false {A : Type} (env : Env A) (t : TxnReq) (fuel : Nat)
    (e : Event) (roomVersion : String) (isInboundTxn : Bool) (log : Log) (ok : Bool)
    (err : Option GoError) (log' : Log)
    (h : getMissingEvents env t fuel e roomVersion isInboundTxn log = some (ok, err, log')) :
    ok = false := by
  cases fuel with
  | zero => simp [getMissingEvents] at h
  | succ fuel =>
    simp only [getMissingEvents] at h
    split at h
    · simp only [Option.some.injEq, Prod.mk.injEq] at h
      exact h.1.symm
    · split at h
      · split at h <;>
          · simp only [Option.some.injEq, Prod.mk.injEq] at h
            exact h.1.symm
      · split at h
        · simp at h
        · simp only [Option.some.injEq, Prod.mk.injEq] at h
          exact h.1.symm
        · split at h
          · simp at h
          · simp only [Option.some.injEq, Prod.mk.injEq] at h
            exact h.1.symm
          · split at h
            · simp at h
            · simp only [Option.some.injEq, Prod.mk.injEq] at h
              exact h.1.symm

/-- C10 (failing input): in the gap scenario the remote call succeeds, `findPath` finds a
path, `processEvent` returns nil for the event `P` on the path and for `E` itself, and
`getMissingEvents` still returns `(false, nil)`; `processEventWithMissingState` therefore
goes on to request `/state_ids` and returns the error of the second authorization
check. -/
theorem getMissingEvents_filled_returns_false :
    ∃ log1 log2 log3 log4,
      findPath [evP] evE ["X"] = some true ∧
      gapEnv.pathOf [evP] evE ["X"] = [evP] ∧
      processEvent gapEnv gapTxn 2 evP false log1 = some (none, log2) ∧
      processEvent gapEnv gapTxn 3 evE false log2 = some (none, log3) ∧
      getMissingEvents gapEnv gapTxn 4 evE "1" true [] = some (false, none, log3) ∧
      processEventWithMissingState gapEnv gapTxn 5 evE "1" true [] =
        some (some (GoError.notAllowed "eventauth: not allowed"), log4) ∧
      Call.lookupStateIDs "remote" "r" "E" (.ok { stateEventIDs := [], authEventIDs := [] })
        ∈ log4 :=
  ⟨[Call.queryLatestEventsAndState "r" (.ok { latestEvents := [⟨"X"⟩], depth := 5 }),
    Call.lookupMissingEvents "remote" "r"
      { limit := 20, minDepth := -15, earliestEvents := ["X"], latestEvents := ["E"] } "1"
      (.ok { events := [evP] })],
    _, _, _, by decide, rfl, rfl, rfl, rfl, rfl, by decide⟩

/-! ## C6: failures of the decode step -/

/-- Failures of the decode step.  When the PDUs before `p` decode and verify (`hpre`) and
`p` fails at one of the four steps of the decode loop, `processTransaction` returns, for
every step budget, `(nil, err)` with no result map, where `err` is an `unmarshalError`
(room id not extracted), a `roomNotFoundError` (room version query failed), an
`unmarshalError` (event not parsed, provided `EventID()` on the failed event does not
panic) or a `verifySigError` (signatures not verified); in each case no entry into
`processEvent` and no commit was made, also not for the PDUs before `p`.  When the event
is not parsed and `EventID()` on the failed event panics, `processTransaction` does not
return. -/
theorem processTransaction_decode_failure {A : Type} (env : Env A) (t : TxnReq)
    (fuel : Nat) (log : Log) (pre : List String) (p : String) (post : List String)
    (pdus0 : List HeaderedEvent) (log0 : Log)
    (ht : t.pdus = pre ++ p :: post)
    (hpre : decodePDUs env pre [] log = some (.ok pdus0, log0)) :
    (∀ err, env.unmarshalRoomID p = .error err →
      DecodeAborts env t fuel log (GoError.unmarshalError err) log0) ∧
    (∀ roomID err, env.unmarshalRoomID p = .ok roomID →
      env.queryRoomVersionForRoom log0 roomID = .error err →
      DecodeAborts env t fuel log (GoError.roomNotFoundError roomID)
        (log0 ++ [Call.queryRoomVersionForRoom roomID (.error err)])) ∧
    (∀ roomID roomVersion err id, env.unmarshalRoomID p = .ok roomID →
      env.queryRoomVersionForRoom log0 roomID = .ok roomVersion →
      env.newEventFromUntrustedJSON p roomVersion = .error err →
      env.failedEventID p roomVersion = some id →
      DecodeAborts env t fuel log (GoError.unmarshalError err)
        (log0 ++ [Call.queryRoomVersionForRoom roomID (.ok roomVersion)])) ∧
    (∀ roomID roomVersion err, env.unmarshalRoomID p = .ok roomID →
      env.queryRoomVersionForRoom log0 roomID = .ok roomVersion →
      env.newEventFromUntrustedJSON p roomVersion = .error err →
      env.failedEventID p roomVersion = none →
      decodePDUs env t.pdus [] log = none ∧ processTransaction env t fuel log = none) ∧
    (∀ roomID roomVersion event err, env.unmarshalRoomID p = .ok roomID →
      env.queryRoomVersionForRoom log0 roomID = .ok roomVersion →
      env.newEventFromUntrustedJSON p roomVersion = .ok event →
      env.verifyAllEventSignatures
        (log0 ++ [Call.queryRoomVersionForRoom roomID (.ok roomVersion)]) [event] = some err →
      DecodeAborts env t fuel log (GoError.verifySigError event.eventID err)
        (log0 ++ [Call.queryRoomVersionForRoom roomID (.ok roomVersion)] ++
          [Call.verifyAllEventSignatures [event] (some err)])) := by
  have hsplit : decodePDUs env t.pdus [] log = decodePDUs env (p :: post) pdus0 log0 := by
    rw [ht, decodePDUs_append, hpre]
  have habort : ∀ err log', decodePDUs env (p :: post) pdus0 log0 = some (.error err, log') →
      DecodeAborts env t fuel log err log' := by
    intro err log' hdec
    rw [← hsplit] at hdec
    refine ⟨?_, ?_⟩
    · unfold processTransaction
      rw [hdec]
    · exact decodePDUs_log env t.pdus [] log _ log' hdec
  refine ⟨?_, ?_, ?_, ?_, ?_⟩
  · intro err h1
    apply habort
    simp only [decodePDUs, h1]
  · intro roomID err h1 h2
    apply habort
    simp only [decodePDUs, h1, h2]
  · intro roomID roomVersion err id h1 h2 h3 h4
    apply habort
    simp only [decodePDUs, h1, h2, h3, h4]
  · intro roomID roomVersion err h1 h2 h3 h4
    have hnone : decodePDUs env t.pdus [] log = none := by
      rw [hsplit]
      simp only [decodePDUs, h1, h2, h3, h4]
    refine ⟨hnone, ?_⟩
    unfold processTransaction
    rw [hnone]
  · intro roomID roomVersion event err h1 h2 h3 h4
    apply habort
    simp only [decodePDUs, h1, h2, h3, h4]

/-- An instance of the decode failures: the second PDU of `badTxn` does not parse, and
`EventID()` on the failed event does not panic in `gapEnv`; the transaction is aborted
with an `unmarshalError` even with step budget 0, after the first PDU was decoded and
verified. -/
theorem processTransaction_decode_failure_witness :
    decodePDUs gapEnv ["E"] [] [] =
        some (.ok [evE.headered "1"],
          [Call.queryRoomVersionForRoom "r" (.ok "1"),
           Call.verifyAllEventSignatures [evE] none]) ∧
      DecodeAborts gapEnv badTxn 0 [] (GoError.unmarshalError (GoError.other "bad event"))
        ([Call.queryRoomVersionForRoom "r" (.ok "1"),
          Call.verifyAllEventSignatures [evE] none] ++
          [Call.queryRoomVersionForRoom "r" (.ok "1")]) :=
  ⟨rfl,
    (processTransaction_decode_failure gapEnv badTxn 0 [] ["E"] "Z" [] _ _ rfl rfl).2.2.1
      "r" "1" (GoError.other "bad event") "" rfl rfl rfl rfl⟩

/-- C6 (failing input): the second PDU `Z` of `badTxn` does not parse, and in `panicEnv`
its fields are left undecoded, so the `event.EventID()` of the log statement at line 130
panics before `return nil, unmarshalError{err}`: the decode loop, `processTransaction`
and `Send` return nothing, for every step budget, where the claim has an
`unmarshalError`. -/
theorem processTransaction_parse_failure_panics :
    panicEnv.newEventFromUntrustedJSON "Z" "1" = .error (GoError.other "bad event") ∧
      panicEnv.failedEventID "Z" "1" = none ∧
      decodePDUs panicEnv badTxn.pdus [] [] = none ∧
      NeverReturns (fun fuel => processTransaction panicEnv badTxn fuel []) ∧
      NeverReturns (fun fuel => Send panicEnv "Z" "remote" "t3" "local" fuel []) := by
  refine ⟨rfl, rfl, rfl, ?_, ?_⟩
  · intro fuel
    have h : decodePDUs panicEnv badTxn.pdus [] [] = none := rfl
    simp only [processTransaction, h]
  · intro fuel
    have hu : panicEnv.unmarshalTxn "Z" = .ok (["Z"], []) := by decide
    have h : decodePDUs panicEnv ["Z"] [] [] = none := rfl
    simp only [Send, hu, processTransaction, h]

/-! ## C7: the status of the answer -/

/-- C7: `Send` answers 400 with the log untouched, whatever the step budget, when the
body is not valid JSON; otherwise it runs `processTransaction` and answers 200 with the
result map when there is no error, 400 when the error is a `roomNotFoundError`, an
`unmarshalError` or a `verifySigError`, and 500 for every other error. -/
theorem Send_status {A : Type} (env : Env A) (content origin txnID serverName : String)
    (fuel : Nat) (log : Log) :
    (∀ err, env.unmarshalTxn content = .error err →
      Send env content origin txnID serverName fuel log =
        some ({ code := 400
                json := JSONBody.notJSON
                  ("The request body could not be decoded into valid JSON. " ++ err.Error) },
          log)) ∧
    (∀ pdus edus resp err log', env.unmarshalTxn content = .ok (pdus, edus) →
      processTransaction env
        { pdus := pdus, edus := edus, origin := origin, transactionID := txnID
          destination := serverName } fuel log = some (resp, err, log') →
      (err = none →
        Send env content origin txnID serverName fuel log =
          some ({ code := 200, json := JSONBody.respSend resp }, log')) ∧
      (∀ e, err = some e → e.isBadRequest = true →
        Send env content origin txnID serverName fuel log =
          some ({ code := 400, json := JSONBody.badJSON e.Error }, log')) ∧
      (∀ e, err = some e → e.isBadRequest = false →
        Send env content origin txnID serverName fuel log =
          some ({ code := 500, json := JSONBody.internalServerError }, log'))) := by
  refine ⟨?_, ?_⟩
  · intro err h
    simp only [Send, h, StatusBadRequest]
  · intro pdus edus resp err log' h hp
    refine ⟨?_, ?_, ?_⟩
    · intro he
      subst he
      simp only [Send, h, hp, StatusOK]
    · intro e he hbad
      subst he
      simp only [Send, h, hp]
      cases e <;> first | rfl | simp [GoError.isBadRequest] at hbad
    · intro e he hbad
      subst he
      simp only [Send, h, hp]
      cases e <;> first | rfl | simp [GoError.isBadRequest] at hbad

/-! ## C8, C9: the errors of getMissingEvents -/

/-- An error of the path loop is the error `processEvent` returned for an event of the
path. -/
theorem processPath_error {A : Type} (env : Env A) (t : TxnReq) (fuel : Nat)
    (path : List Event) (log : Log) (err : GoError) (log' : Log)
    (h : processPath env t fuel path log = some (some err, log')) :
    ∃ p ∈ path, ∃ fuel' logp,
      processEvent env t fuel' p false logp = some (some err, log') := by
  induction fuel generalizing path log with
  | zero => simp [processPath] at h
  | succ fuel ih =>
    cases path with
    | nil => simp [processPath] at h
    | cons p rest =>
      simp only [processPath] at h
      split at h
      · simp at h
      · rename_i err1 log1 hp
        simp only [Option.some.injEq, Prod.mk.injEq] at h
        obtain ⟨h1, h2⟩ := h
        subst h1 h2
        exact ⟨p, List.mem_cons_self _ _, fuel, log, hp⟩
      · obtain ⟨q, hq, r⟩ := ih _ _ h
        exact ⟨q, List.mem_cons_of_mem _ hq, r⟩

/-- C8 (counterexample): the remote call succeeds and `isInboundTxn` is false, yet
`getMissingEvents` returns a non-nil error: the error `processEvent` returned for the
event `P` on the found path. -/
theorem getMissingEvents_path_error_returned :
    downEnv.lookupMissingEvents
        [Call.queryLatestEventsAndState "r" (.ok { latestEvents := [⟨"X"⟩], depth := 5 })]
        "remote" "r"
        { limit := 20, minDepth := -15, earliestEvents := ["X"], latestEvents := ["E"] } "1" =
        .ok { events := [evP] } ∧
      ∃ log, getMissingEvents downEnv gapTxn 3 evE "1" false [] =
        some (false, some (GoError.other "database is down"), log) :=
  ⟨rfl, _, rfl⟩

/-- C8 (amended): `getMissingEvents` returns a non-nil error only when the remote
`/get_missing_events` call failed and `isInboundTxn` is true (that error), or when the
remote call succeeded, `findPath` reported a path and `processEvent` returned an error
for an event on the path (that error, whatever `isInboundTxn` is).  A failure of the
local query, a remote failure with `isInboundTxn` false and a bag without a path give
`(false, nil)`, and so does every outcome of the final re-processing of `e`. -/
theorem getMissingEvents_error_sources {A : Type} (env : Env A) (t : TxnReq) (fuel : Nat)
    (e : Event) (roomVersion : String) (isInboundTxn : Bool) (log : Log) :
    (∀ ok err log',
      getMissingEvents env t fuel e roomVersion isInboundTxn log = some (ok, some err, log') →
      ∃ res, env.queryLatestEventsAndState log e.roomID = .ok res ∧
        ((env.lookupMissingEvents
              (log ++ [Call.queryLatestEventsAndState e.roomID (.ok res)]) t.origin e.roomID
              (missingEventsRequest res e) roomVersion = .error err ∧ isInboundTxn = true) ∨
          ∃ missingResp,
            env.lookupMissingEvents
              (log ++ [Call.queryLatestEventsAndState e.roomID (.ok res)]) t.origin e.roomID
              (missingEventsRequest res e) roomVersion = .ok missingResp ∧
            findPath missingResp.events e (res.latestEvents.map EventReference.eventID) =
              some true ∧
            ∃ p ∈ env.pathOf missingResp.events e
                (res.latestEvents.map EventReference.eventID),
              ∃ fuel' logp, processEvent env t fuel' p false logp = some (some err, log'))) ∧
    (∀ err, env.queryLatestEventsAndState log e.roomID = .error err →
      getMissingEvents env t (fuel + 1) e roomVersion isInboundTxn log =
        some (false, none, log ++ [Call.queryLatestEventsAndState e.roomID (.error err)])) ∧
    (∀ res err, env.queryLatestEventsAndState log e.roomID = .ok res →
      env.lookupMissingEvents
        (log ++ [Call.queryLatestEventsAndState e.roomID (.ok res)]) t.origin e.roomID
        (missingEventsRequest res e) roomVersion = .error err →
      isInboundTxn = false →
      getMissingEvents env t (fuel + 1) e roomVersion isInboundTxn log =
        some (false, none,
          log ++ [Call.queryLatestEventsAndState e.roomID (.ok res)] ++
            [Call.lookupMissingEvents t.origin e.roomID (missingEventsRequest res e)
              roomVersion (.error err)])) ∧
    (∀ res missingResp, env.queryLatestEventsAndState log e.roomID = .ok res →
      env.lookupMissingEvents
        (log ++ [Call.queryLatestEventsAndState e.roomID (.ok res)]) t.origin e.roomID
        (missingEventsRequest res e) roomVersion = .ok missingResp →
      findPath missingResp.events e (res.latestEvents.map EventReference.eventID) =
        some false →
      getMissingEvents env t (fuel + 1) e roomVersion isInboundTxn log =
        some (false, none,
          log ++ [Call.queryLatestEventsAndState e.roomID (.ok res)] ++
            [Call.lookupMissingEvents t.origin e.roomID (missingEventsRequest res e)
              roomVersion (.ok missingResp)])) ∧
    (∀ res missingResp log1 r log2, env.queryLatestEventsAndState log e.roomID = .ok res →
      env.lookupMissingEvents
        (log ++ [Call.queryLatestEventsAndState e.roomID (.ok res)]) t.origin e.roomID
        (missingEventsRequest res e) roomVersion = .ok missingResp →
      findPath missingResp.events e (res.latestEvents.map EventReference.eventID) =
        some true →
      processPath env t fuel
        (env.pathOf missingResp.events e (res.latestEvents.map EventReference.eventID))
        (log ++ [Call.queryLatestEventsAndState e.roomID (.ok res)] ++
            [Call.lookupMissingEvents t.origin e.roomID (missingEventsRequest res e)
              roomVersion (.ok missingResp)]) = some (none, log1) →
      processEvent env t fuel e false log1 = some (r, log2) →
      getMissingEvents env t (fuel + 1) e roomVersion isInboundTxn log =
        some (false, none, log2)) := by
  refine ⟨?_, ?_, ?_, ?_, ?_⟩
  · intro ok err log' h
    cases fuel with
    | zero => simp [getMissingEvents] at h
    | succ fuel =>
      simp only [getMissingEvents] at h
      split at h
      · simp at h
      · rename_i res hq
        refine ⟨res, hq, ?_⟩
        rw [hq] at h
        split at h
        · rename_i err1 hm
          left
          split at h
          · rename_i hin
            simp only [Option.some.injEq, Prod.mk.injEq] at h
            obtain ⟨-, h2, -⟩ := h
            subst h2
            exact ⟨hm, hin⟩
          · simp at h
        · rename_i missingResp hm
          right
          refine ⟨missingResp, hm, ?_⟩
          split at h
          · simp at h
          · simp at h
          · rename_i hfp
            refine ⟨hfp, ?_⟩
            split at h
            · simp at h
            · rename_i err1 log1 hpp
              simp only [Option.some.injEq, Prod.mk.injEq] at h
              obtain ⟨-, h2, h3⟩ := h
              subst h2 h3
              rw [hm] at hpp
              exact processPath_error env t fuel _ _ _ _ hpp
            · split at h <;> simp at h
  · intro err hq
    simp only [getMissingEvents, hq]
  · intro res err hq hm hin
    subst hin
    simp [getMissingEvents, hq, hm]
  · intro res missingResp hq hm hfp
    simp only [getMissingEvents, hq, hm, hfp]
  · intro res missingResp log1 r log2 hq hm hfp hpp hpe
    simp only [getMissingEvents, hq, hm, hfp, hpp, hpe]

/-! ## Log extensions -/

theorem Extends.same (P : Call → Prop) (log : Log) : Extends P log log :=
  ⟨[], by simp, by simp⟩

theorem Extends.andThen {P : Call → Prop} {log log1 log2 : Log} (h1 : Extends P log log1)
    (h2 : Extends P log1 log2) : Extends P log log2 := by
  obtain ⟨n1, e1, p1⟩ := h1
  obtain ⟨n2, e2, p2⟩ := h2
  refine ⟨n1 ++ n2, by rw [e2, e1, List.append_assoc], ?_⟩
  intro c hc
  rcases List.mem_append.1 hc with h | h
  · exact p1 c h
  · exact p2 c h

theorem Extends.call {P : Call → Prop} (log : Log) (c : Call) (h : P c) :
    Extends P log (log ++ [c]) :=
  ⟨[c], rfl, by simpa using h⟩

theorem lookupMissingStateViaState_extends {A : Type} (env : Env A) (t : TxnReq) (e : Event)
    (roomVersion : String) (log : Log) :
    Extends Call.Quiet log (lookupMissingStateViaState env t e roomVersion log).2 := by
  have q1 : ∀ r, Call.Quiet (Call.lookupState t.origin e.roomID e.eventID roomVersion r) :=
    fun _ => ⟨rfl, rfl⟩
  have q2 : ∀ s r, Call.Quiet (Call.check s r) := fun _ _ => ⟨rfl, rfl⟩
  unfold lookupMissingStateViaState
  simp only
  split
  · exact Extends.call _ _ (q1 _)
  · split
    · exact (Extends.call _ _ (q1 _)).andThen (Extends.call _ _ (q2 _ _))
    · exact (Extends.call _ _ (q1 _)).andThen (Extends.call _ _ (q2 _ _))

theorem queryHaveEvents_extends {A : Type} (env : Env A) (lists : List (List String))
    (haveEventMap : List (String × HeaderedEvent)) (log : Log) :
    Extends Call.Quiet log (queryHaveEvents env lists haveEventMap log).2 := by
  induction lists generalizing haveEventMap log with
  | nil => exact Extends.same _ _
  | cons l tl ih =>
    have q : ∀ r, Call.Quiet (Call.queryEventsByID l r) := fun _ => ⟨rfl, rfl⟩
    simp only [queryHaveEvents]
    split
    · exact Extends.call _ _ (q _)
    · exact (Extends.call _ _ (q _)).andThen (ih _ _)

theorem indexFetchedPDUs_extends {A : Type} (env : Env A) (roomVersion : String)
    (pdus : List String) (haveEventMap : List (String × HeaderedEvent)) (log : Log) :
    Extends Call.Quiet log (indexFetchedPDUs env roomVersion pdus haveEventMap log).2 := by
  induction pdus generalizing haveEventMap log with
  | nil => exact Extends.same _ _
  | cons p tl ih =>
    have q : ∀ evs r, Call.Quiet (Call.verifyAllEventSignatures evs r) := fun _ _ => ⟨rfl, rfl⟩
    simp only [indexFetchedPDUs]
    split
    · exact Extends.same _ _
    · split
      · exact Extends.call _ _ (q _ _)
      · exact (Extends.call _ _ (q _ _)).andThen (ih _ _)

theorem fetchMissing_extends {A : Type} (env : Env A) (t : TxnReq) (roomVersion : String)
    (ids : List String) (haveEventMap : List (String × HeaderedEvent)) (log : Log) :
    Extends Call.Quiet log (fetchMissing env t roomVersion ids haveEventMap log).2 := by
  induction ids generalizing haveEventMap log with
  | nil => exact Extends.same _ _
  | cons i tl ih =>
    have q : ∀ r, Call.Quiet (Call.getEvent t.origin i r) := fun _ => ⟨rfl, rfl⟩
    simp only [fetchMissing]
    split
    · exact Extends.call _ _ (q _)
    · rename_i pdus hg
      have hx := indexFetchedPDUs_extends env roomVersion pdus haveEventMap
        (log ++ [Call.getEvent t.origin i (env.getEvent log t.origin i)])
      split
      · rename_i err log1 hi
        rw [hi] at hx
        exact (Extends.call _ _ (q _)).andThen hx
      · rename_i m log1 hi
        rw [hi] at hx
        exact ((Extends.call _ _ (q _)).andThen hx).andThen (ih _ _)

theorem createRespStateFromStateIDs_extends {A : Type} (env : Env A) (stateIDs : RespStateIDs)
    (haveEventMap : List (String × HeaderedEvent)) (log : Log) :
    Extends Call.Quiet log (createRespStateFromStateIDs env stateIDs haveEventMap log).2 := by
  have q : ∀ s r, Call.Quiet (Call.check s r) := fun _ _ => ⟨rfl, rfl⟩
  unfold createRespStateFromStateIDs
  split
  · exact Extends.same _ _
  · split
    · exact Extends.same _ _
    · simp only
      split
      · exact Extends.call _ _ (q _ _)
      · exact Extends.call _ _ (q _ _)

/-- The calls of `lookupMissingStateViaStateIDs`: first the `/state_ids` request, then
calls that neither enter `processEvent` nor commit. -/
theorem lookupMissingStateViaStateIDs_calls {A : Type} (env : Env A) (t : TxnReq) (e : Event)
    (roomVersion : String) (log : Log) :
    Extends Call.Quiet
      (log ++ [Call.lookupStateIDs t.origin e.roomID e.eventID
        (env.lookupStateIDs log t.origin e.roomID e.eventID)])
      (lookupMissingStateViaStateIDs env t e roomVersion log).2 := by
  unfold lookupMissingStateViaStateIDs
  simp only
  split
  · exact Extends.same _ _
  · rename_i stateIDs hs
    have h1 := queryHaveEvents_extends env [stateIDs.stateEventIDs, stateIDs.authEventIDs] []
      (log ++ [Call.lookupStateIDs t.origin e.roomID e.eventID
        (env.lookupStateIDs log t.origin e.roomID e.eventID)])
    split
    · rename_i err log1 hq
      rw [hq] at h1
      exact h1
    · rename_i m log1 hq
      rw [hq] at h1
      have h2 := fetchMissing_extends env t roomVersion
        (missingIDs m (stateIDs.stateEventIDs ++ stateIDs.authEventIDs)) m log1
      split
      · rename_i err log2 hf
        rw [hf] at h2
        exact h1.andThen h2
      · rename_i m2 log2 hf
        rw [hf] at h2
        exact (h1.andThen h2).andThen (createRespStateFromStateIDs_extends env stateIDs m2 log2)

theorem lookupMissingStateViaStateIDs_extends {A : Type} (env : Env A) (t : TxnReq)
    (e : Event) (roomVersion : String) (log : Log) :
    Extends Call.Quiet log (lookupMissingStateViaStateIDs env t e roomVersion log).2 :=
  (Extends.call _ _ ⟨rfl, rfl⟩).andThen (lookupMissingStateViaStateIDs_calls env t e roomVersion log)

/-- C9: when the local query succeeds (`hq`) and the remote `/get_missing_events` call
fails with `err` (`hm`), `isInboundTxn` alone decides the result.  With
`isInboundTxn = true`, `getMissingEvents` returns `(false, err)` and
`processEventWithMissingState` returns `err` with exactly the two calls made so far in
the log: no `/state_ids`, no `/state`, no commit.  With `isInboundTxn = false`,
`getMissingEvents` returns `(false, nil)` and `processEventWithMissingState` goes on
with the state lookup: its next call is the `/state_ids` request. -/
theorem getMissingEvents_remote_failure {A : Type} (env : Env A) (t : TxnReq) (fuel : Nat)
    (e : Event) (roomVersion : String) (log : Log)
    (res : QueryLatestEventsAndStateResponse) (err : GoError)
    (hq : env.queryLatestEventsAndState log e.roomID = .ok res)
    (hm : env.lookupMissingEvents
      (log ++ [Call.queryLatestEventsAndState e.roomID (.ok res)]) t.origin e.roomID
      (missingEventsRequest res e) roomVersion = .error err) :
    getMissingEvents env t (fuel + 1) e roomVersion true log =
        some (false, some err,
          log ++ [Call.queryLatestEventsAndState e.roomID (.ok res)] ++
            [Call.lookupMissingEvents t.origin e.roomID (missingEventsRequest res e)
              roomVersion (.error err)]) ∧
      processEventWithMissingState env t (fuel + 2) e roomVersion true log =
        some (some err,
          log ++ [Call.queryLatestEventsAndState e.roomID (.ok res)] ++
            [Call.lookupMissingEvents t.origin e.roomID (missingEventsRequest res e)
              roomVersion (.error err)]) ∧
      getMissingEvents env t (fuel + 1) e roomVersion false log =
        some (false, none,
          log ++ [Call.queryLatestEventsAndState e.roomID (.ok res)] ++
            [Call.lookupMissingEvents t.origin e.roomID (missingEventsRequest res e)
              roomVersion (.error err)]) ∧
      processEventWithMissingState env t (fuel + 2) e roomVersion false log =
        (match lookupMissingStateViaStateIDs env t e roomVersion
            (log ++ [Call.queryLatestEventsAndState e.roomID (.ok res)] ++
              [Call.lookupMissingEvents t.origin e.roomID (missingEventsRequest res e)
                roomVersion (.error err)]) with
          | (.ok respState, log3) =>
            retryAllowedState env t (fuel + 1) e roomVersion false respState log3
          | (.error _, log3) =>
            match lookupMissingStateViaState env t e roomVersion log3 with
            | (.error err, log4) => some (some err, log4)
            | (.ok respState, log4) =>
              retryAllowedState env t (fuel + 1) e roomVersion false respState log4) ∧
      ∃ new, (lookupMissingStateViaStateIDs env t e roomVersion
          (log ++ [Call.queryLatestEventsAndState e.roomID (.ok res)] ++
            [Call.lookupMissingEvents t.origin e.roomID (missingEventsRequest res e)
              roomVersion (.error err)])).2 =
        log ++ [Call.queryLatestEventsAndState e.roomID (.ok res)] ++
            [Call.lookupMissingEvents t.origin e.roomID (missingEventsRequest res e)
              roomVersion (.error err)] ++
          [Call.lookupStateIDs t.origin e.roomID e.eventID
            (env.lookupStateIDs
              (log ++ [Call.queryLatestEventsAndState e.roomID (.ok res)] ++
                [Call.lookupMissingEvents t.origin e.roomID (missingEventsRequest res e)
                  roomVersion (.error err)]) t.origin e.roomID e.eventID)] ++ new := by
  have g1 : getMissingEvents env t (fuel + 1) e roomVersion true log =
      some (false, some err,
        log ++ [Call.queryLatestEventsAndState e.roomID (.ok res)] ++
          [Call.lookupMissingEvents t.origin e.roomID (missingEventsRequest res e)
            roomVersion (.error err)]) := by
    simp [getMissingEvents, hq, hm]
  have g2 : getMissingEvents env t (fuel + 1) e roomVersion false log =
      some (false, none,
        log ++ [Call.queryLatestEventsAndState e.roomID (.ok res)] ++
          [Call.lookupMissingEvents t.origin e.roomID (missingEventsRequest res e)
            roomVersion (.error err)]) := by
    simp [getMissingEvents, hq, hm]
  refine ⟨g1, ?_, g2, ?_, ?_⟩
  · simp only [processEventWithMissingState, g1]
  · simp only [processEventWithMissingState, g2]
  · obtain ⟨new, hnew, -⟩ := lookupMissingStateViaStateIDs_calls env t e roomVersion
      (log ++ [Call.queryLatestEventsAndState e.roomID (.ok res)] ++
        [Call.lookupMissingEvents t.origin e.roomID (missingEventsRequest res e)
          roomVersion (.error err)])
    exact ⟨new, hnew⟩

/-- C9 (witness): with a remote server that does not answer `/get_missing_events`, the
pushed event `E` is dropped with the remote error after two calls. -/
theorem getMissingEvents_remote_failure_witness :
    processEventWithMissingState offlineEnv gapTxn 2 evE "1" true [] =
        some (some (GoError.other "connection refused"),
          [] ++ [Call.queryLatestEventsAndState "r"
              (.ok { latestEvents := [⟨"X"⟩], depth := 5 })] ++
            [Call.lookupMissingEvents "remote" "r"
              (missingEventsRequest { latestEvents := [⟨"X"⟩], depth := 5 } evE) "1"
              (.error (GoError.other "connection refused"))]) ∧
      getMissingEvents offlineEnv gapTxn 1 evE "1" false [] =
        some (false, none,
          [] ++ [Call.queryLatestEventsAndState "r"
              (.ok { latestEvents := [⟨"X"⟩], depth := 5 })] ++
            [Call.lookupMissingEvents "remote" "r"
              (missingEventsRequest { latestEvents := [⟨"X"⟩], depth := 5 } evE) "1"
              (.error (GoError.other "connection refused"))]) :=
  have h := getMissingEvents_remote_failure offlineEnv gapTxn 0 evE "1" []
    { latestEvents := [⟨"X"⟩], depth := 5 } (GoError.other "connection refused") rfl rfl
  ⟨h.2.1, h.2.2.1⟩

/-! ## C5: commits follow authorization -/

theorem CommitAuthorized.of_not_commit {A : Type} (env : Env A) (before : Log) (c : Call)
    (h : c.isCommit = false) : CommitAuthorized env before c := by
  cases c <;> trivial

theorem AuthorizedRun.unchanged {A : Type} (env : Env A) (log : Log) : AuthorizedRun env log log :=
  ⟨[], by simp, by simp⟩

theorem AuthorizedRun.followedBy {A : Type} {env : Env A} {log log1 log2 : Log}
    (h1 : AuthorizedRun env log log1) (h2 : AuthorizedRun env log1 log2) :
    AuthorizedRun env log log2 := by
  obtain ⟨n1, e1, p1⟩ := h1
  obtain ⟨n2, e2, p2⟩ := h2
  refine ⟨n1 ++ n2, by rw [e2, e1, List.append_assoc], ?_⟩
  intro pre c post hsplit
  rcases List.append_eq_append_iff.1 hsplit with ⟨a', ha, hb⟩ | ⟨c', ha, hb⟩
  · -- pre = n1 ++ a', n2 = a' ++ c :: post
    rw [ha, ← List.append_assoc, ← e1]
    exact p2 a' c post hb
  · -- n1 = pre ++ c', c :: post = c' ++ n2
    cases c' with
    | nil =>
      simp only [List.nil_append] at hb
      simp only [List.append_nil] at ha
      rw [← ha, ← e1]
      have h0 := p2 [] c post (by simpa using hb.symm)
      simpa using h0
    | cons x xs =>
      simp only [List.cons_append, List.cons.injEq] at hb
      obtain ⟨hx, -⟩ := hb
      subst hx
      exact p1 pre c xs ha

theorem AuthorizedRun.of_extends {A : Type} (env : Env A) {log log' : Log}
    (h : Extends Call.Quiet log log') : AuthorizedRun env log log' := by
  obtain ⟨new, e, p⟩ := h
  refine ⟨new, e, ?_⟩
  intro pre c post hsplit
  apply CommitAuthorized.of_not_commit
  exact (p c (by rw [hsplit]; simp)).2

theorem AuthorizedRun.commit {A : Type} (env : Env A) (log : Log) (c : Call)
    (h : CommitAuthorized env log c) : AuthorizedRun env log (log ++ [c]) := by
  refine ⟨[c], rfl, ?_⟩
  intro pre c' post hsplit
  cases pre with
  | nil =>
    simp only [List.nil_append, List.cons.injEq] at hsplit
    rw [← hsplit.1]
    simpa using h
  | cons x xs =>
    simp only [List.cons_append, List.cons.injEq] at hsplit
    have := hsplit.2
    simp at this

theorem AuthorizedRun.quietCall {A : Type} (env : Env A) (log : Log) (c : Call)
    (h : c.isCommit = false) : AuthorizedRun env log (log ++ [c]) :=
  AuthorizedRun.commit env log c (CommitAuthorized.of_not_commit env log c h)

/-- Every run of the six mutually recursive functions extends the log by calls whose
commits all follow a passed authorization check. -/
theorem run_authorized {A : Type} (env : Env A) (t : TxnReq) (fuel : Nat) :
    (∀ e inbound log r log',
      processEvent env t fuel e inbound log = some (r, log') → AuthorizedRun env log log') ∧
    (∀ e rv inbound log r log',
      processEventWithMissingState env t fuel e rv inbound log = some (r, log') →
        AuthorizedRun env log log') ∧
    (∀ e rv inbound rs log r log',
      retryAllowedState env t fuel e rv inbound rs log = some (r, log') →
        AuthorizedRun env log log') ∧
    (∀ e rv inbound rs aid remaining err log r log',
      missingAuthLoop env t fuel e rv inbound rs aid remaining err log = some (r, log') →
        AuthorizedRun env log log') ∧
    (∀ e rv inbound log ok err log',
      getMissingEvents env t fuel e rv inbound log = some (ok, err, log') →
        AuthorizedRun env log log') ∧
    (∀ path log r log',
      processPath env t fuel path log = some (r, log') → AuthorizedRun env log log') := by
  induction fuel with
  | zero =>
    refine ⟨?_, ?_, ?_, ?_, ?_, ?_⟩ <;> intros <;> rename_i h
    · simp [processEvent] at h
    · simp [processEventWithMissingState] at h
    · simp [retryAllowedState] at h
    · simp [missingAuthLoop] at h
    · simp [getMissingEvents] at h
    · simp [processPath] at h
  | succ fuel ih =>
    obtain ⟨ihPE, ihMS, ihRA, ihML, ihGM, ihPP⟩ := ih
    refine ⟨?_, ?_, ?_, ?_, ?_, ?_⟩
    · intro e inbound log r log' h
      simp only [processEvent] at h
      generalize hrq : env.queryStateAfterEvents (log ++ [Call.processEvent e inbound])
        e.roomID e.prevEventIDs (env.stateNeededForAuth [e]) = rq at h
      have hq : AuthorizedRun env log
          (log ++ [Call.processEvent e inbound] ++
            [Call.queryStateAfterEvents e.roomID e.prevEventIDs (env.stateNeededForAuth [e])
              rq]) :=
        (AuthorizedRun.quietCall env log (Call.processEvent e inbound) rfl).followedBy
          (AuthorizedRun.quietCall env _ (Call.queryStateAfterEvents _ _ _ _) rfl)
      cases rq with
      | error err =>
        simp only [Option.some.injEq, Prod.mk.injEq] at h
        rw [← h.2]
        exact hq
      | ok stateResp =>
        simp only at h
        split at h
        · simp only [Option.some.injEq, Prod.mk.injEq] at h
          rw [← h.2]
          exact hq
        · split at h
          · exact hq.followedBy (ihMS _ _ _ _ _ _ h)
          · split at h
            · simp only [Option.some.injEq, Prod.mk.injEq] at h
              rw [← h.2]
              exact hq
            · rename_i hallow
              simp only [Option.some.injEq, Prod.mk.injEq] at h
              rw [← h.2]
              refine hq.followedBy (AuthorizedRun.commit env _ _ ?_)
              exact ⟨e, stateResp, log ++ [Call.processEvent e inbound], rfl, rfl, hrq, hallow⟩
    · intro e rv inbound log r log' h
      simp only [processEventWithMissingState] at h
      generalize hg : getMissingEvents env t fuel e rv inbound log = g at h
      cases g with
      | none => simp at h
      | some g =>
        obtain ⟨ok, oerr, log1⟩ := g
        have h1 := ihGM _ _ _ _ _ _ _ hg
        cases oerr with
        | some err =>
          simp only [Option.some.injEq, Prod.mk.injEq] at h
          rw [← h.2]
          exact h1
        | none =>
          cases ok with
          | true =>
            simp only [Option.some.injEq, Prod.mk.injEq] at h
            rw [← h.2]
            exact h1
          | false =>
            simp only at h
            have hx := lookupMissingStateViaStateIDs_extends env t e rv log1
            generalize lookupMissingStateViaStateIDs env t e rv log1 = l at h hx
            obtain ⟨rl, log2⟩ := l
            have h2 := h1.followedBy (AuthorizedRun.of_extends env hx)
            cases rl with
            | ok respState =>
              simp only at h
              exact h2.followedBy (ihRA _ _ _ _ _ _ _ h)
            | error err0 =>
              simp only at h
              have hy := lookupMissingStateViaState_extends env t e rv log2
              generalize lookupMissingStateViaState env t e rv log2 = l2 at h hy
              obtain ⟨rl2, log3⟩ := l2
              have h3 := h2.followedBy (AuthorizedRun.of_extends env hy)
              cases rl2 with
              | error err1 =>
                simp only [Option.some.injEq, Prod.mk.injEq] at h
                rw [← h.2]
                exact h3
              | ok respState =>
                simp only at h
                exact h3.followedBy (ihRA _ _ _ _ _ _ _ h)
    · intro e rv inbound rs log r log' h
      simp only [retryAllowedState] at h
      generalize hc : checkAllowedByState env e rs.stateEvents = c at h
      cases c with
      | none =>
        simp only [Option.some.injEq, Prod.mk.injEq] at h
        rw [← h.2]
        exact AuthorizedRun.commit env _ _ hc
      | some err =>
        cases err with
        | missingAuthEventError aid =>
          simp only at h
          exact ihML _ _ _ _ _ _ _ _ _ _ h
        | _ =>
          simp only [Option.some.injEq, Prod.mk.injEq] at h
          rw [← h.2]
          exact AuthorizedRun.unchanged env _
    · intro e rv inbound rs aid remaining err log r log' h
      simp only [missingAuthLoop] at h
      cases remaining with
      | nil =>
        simp only [Option.some.injEq, Prod.mk.injEq] at h
        rw [← h.2]
        exact AuthorizedRun.unchanged env _
      | cons s rest =>
        simp only at h
        split at h
        · exact ihML _ _ _ _ _ _ _ _ _ _ h
        · split at h
          · simp at h
          · rename_i log1 hp
            exact (ihMS _ _ _ _ _ _ hp).followedBy (ihRA _ _ _ _ _ _ _ h)
          · rename_i err1 log1 hp
            exact (ihMS _ _ _ _ _ _ hp).followedBy (ihML _ _ _ _ _ _ _ _ _ _ h)
    · intro e rv inbound log ok err log' h
      simp only [getMissingEvents] at h
      generalize env.queryLatestEventsAndState log e.roomID = q at h
      have hq : AuthorizedRun env log (log ++ [Call.queryLatestEventsAndState e.roomID q]) :=
        AuthorizedRun.quietCall env log _ rfl
      cases q with
      | error err0 =>
        simp only [Option.some.injEq, Prod.mk.injEq] at h
        rw [← h.2.2]
        exact hq
      | ok res =>
        simp only at h
        generalize env.lookupMissingEvents
          (log ++ [Call.queryLatestEventsAndState e.roomID (.ok res)]) t.origin e.roomID
          (missingEventsRequest res e) rv = m at h
        have hm : AuthorizedRun env log
            (log ++ [Call.queryLatestEventsAndState e.roomID (.ok res)] ++
              [Call.lookupMissingEvents t.origin e.roomID (missingEventsRequest res e) rv m]) :=
          hq.followedBy (AuthorizedRun.quietCall env _ (Call.lookupMissingEvents _ _ _ _ _) rfl)
        cases m with
        | error err0 =>
          simp only at h
          split at h <;>
            · simp only [Option.some.injEq, Prod.mk.injEq] at h
              rw [← h.2.2]
              exact hm
        | ok missingResp =>
          simp only at h
          split at h
          · simp at h
          · simp only [Option.some.injEq, Prod.mk.injEq] at h
            rw [← h.2.2]
            exact hm
          · split at h
            · simp at h
            · rename_i err1 log1 hp
              simp only [Option.some.injEq, Prod.mk.injEq] at h
              rw [← h.2.2]
              exact hm.followedBy (ihPP _ _ _ _ hp)
            · rename_i log1 hp
              split at h
              · simp at h
              · rename_i r2 log2 hp2
                simp only [Option.some.injEq, Prod.mk.injEq] at h
                rw [← h.2.2]
                exact (hm.followedBy (ihPP _ _ _ _ hp)).followedBy (ihPE _ _ _ _ _ hp2)
    · intro path log r log' h
      simp only [processPath] at h
      cases path with
      | nil =>
        simp only [Option.some.injEq, Prod.mk.injEq] at h
        rw [← h.2]
        exact AuthorizedRun.unchanged env _
      | cons p rest =>
        simp only at h
        split at h
        · simp at h
        · rename_i err1 log1 hp
          simp only [Option.some.injEq, Prod.mk.injEq] at h
          rw [← h.2]
          exact ihPE _ _ _ _ _ hp
        · rename_i log1 hp
          exact (ihPE _ _ _ _ _ hp).followedBy (ihPP _ _ _ _ h)

/-- C5: in every run of `processEvent` or `processEventWithMissingState` that returns,
each commit among the calls made follows a passed authorization check.  A `SendEvents`
call carries one event `e'`, comes directly after the answer `stateResp` of
`QueryStateAfterEvents` for the previous events of `e'`, and `checkAllowedByState`
returned no error for `e'` against the state events of `stateResp`.  A
`SendEventWithState` call is made for an event for which `checkAllowedByState` returned
no error against the state events of the `RespState` committed with it. -/
theorem commits_follow_authorization {A : Type} (env : Env A) (t : TxnReq) (fuel : Nat)
    (e : Event) (roomVersion : String) (isInboundTxn : Bool) (log : Log)
    (r : Option GoError) (log' : Log)
    (h : processEvent env t fuel e isInboundTxn log = some (r, log') ∨
      processEventWithMissingState env t fuel e roomVersion isInboundTxn log =
        some (r, log')) :
    ∃ new, log' = log ++ new ∧
      (∀ pre events res post, new = pre ++ Call.sendEvents events res :: post →
        ∃ e' stateResp pre', events = [e'.headered stateResp.roomVersion] ∧
          log ++ pre = pre' ++ [Call.queryStateAfterEvents e'.roomID e'.prevEventIDs
            (env.stateNeededForAuth [e']) (.ok stateResp)] ∧
          env.queryStateAfterEvents pre' e'.roomID e'.prevEventIDs
            (env.stateNeededForAuth [e']) = .ok stateResp ∧
          checkAllowedByState env e' (stateResp.stateEvents.map HeaderedEvent.unwrap) =
            none) ∧
      (∀ pre state event res post,
        new = pre ++ Call.sendEventWithState state event res :: post →
        checkAllowedByState env event.unwrap state.stateEvents = none) := by
  have hrun : AuthorizedRun env log log' := by
    rcases h with h | h
    · exact (run_authorized env t fuel).1 _ _ _ _ _ h
    · exact (run_authorized env t fuel).2.1 _ _ _ _ _ _ h
  obtain ⟨new, hnew, hall⟩ := hrun
  refine ⟨new, hnew, ?_, ?_⟩
  · intro pre events res post hsplit
    exact hall pre _ post hsplit
  · intro pre state event res post hsplit
    exact hall pre _ post hsplit

/-- C5 (witness): the run of `processEvent` on the pushed event `E` in the gap scenario
returns, and it commits `P` and `E` through `SendEvents`. -/
theorem commits_follow_authorization_witness :
    ∃ log' new, processEvent gapEnv gapTxn 5 evE true [] =
        some (some (GoError.notAllowed "eventauth: not allowed"), log') ∧
      log' = [] ++ new ∧
      Call.sendEvents [evP.headered "1"] none ∈ log' ∧
      Call.sendEvents [evE.headered "1"] none ∈ log' :=
  ⟨_, _, rfl,
    (commits_follow_authorization gapEnv gapTxn 5 evE "1" true [] _ _ (Or.inl rfl)).choose_spec.1,
    by decide, by decide⟩

/-! ## C11: the order of the state lookups -/

theorem Call.quiet_of_isStateIDsStep (c : Call) (h : c.isStateIDsStep = true) : c.Quiet := by
  cases c <;> first | exact ⟨rfl, rfl⟩ | simp [Call.isStateIDsStep] at h

theorem Call.quiet_of_isStateStep (c : Call) (h : c.isStateStep = true) : c.Quiet := by
  cases c <;> first | exact ⟨rfl, rfl⟩ | simp [Call.isStateStep] at h

theorem lookupMissingStateViaState_steps {A : Type} (env : Env A) (t : TxnReq) (e : Event)
    (roomVersion : String) (log : Log) :
    Extends Call.StateStep
      (log ++ [Call.lookupState t.origin e.roomID e.eventID roomVersion
        (env.lookupState log t.origin e.roomID e.eventID roomVersion)])
      (lookupMissingStateViaState env t e roomVersion log).2 := by
  unfold lookupMissingStateViaState
  simp only
  split
  · exact Extends.same _ _
  · split
    · exact Extends.call _ _ (show Call.StateStep _ from rfl)
    · exact Extends.call _ _ (show Call.StateStep _ from rfl)

theorem queryHaveEvents_steps {A : Type} (env : Env A) (lists : List (List String))
    (haveEventMap : List (String × HeaderedEvent)) (log : Log) :
    Extends Call.StateIDsStep log
      (queryHaveEvents env lists haveEventMap log).2 := by
  induction lists generalizing haveEventMap log with
  | nil => exact Extends.same _ _
  | cons l tl ih =>
    have q : ∀ r, Call.StateIDsStep (Call.queryEventsByID l r) := fun _ => rfl
    simp only [queryHaveEvents]
    split
    · exact Extends.call _ _ (q _)
    · exact (Extends.call _ _ (q _)).andThen (ih _ _)

theorem indexFetchedPDUs_steps {A : Type} (env : Env A) (roomVersion : String)
    (pdus : List String) (haveEventMap : List (String × HeaderedEvent)) (log : Log) :
    Extends Call.StateIDsStep log
      (indexFetchedPDUs env roomVersion pdus haveEventMap log).2 := by
  induction pdus generalizing haveEventMap log with
  | nil => exact Extends.same _ _
  | cons p tl ih =>
    have q : ∀ evs r, Call.StateIDsStep (Call.verifyAllEventSignatures evs r) :=
      fun _ _ => rfl
    simp only [indexFetchedPDUs]
    split
    · exact Extends.same _ _
    · split
      · exact Extends.call _ _ (q _ _)
      · exact (Extends.call _ _ (q _ _)).andThen (ih _ _)

theorem fetchMissing_steps {A : Type} (env : Env A) (t : TxnReq) (roomVersion : String)
    (ids : List String) (haveEventMap : List (String × HeaderedEvent)) (log : Log) :
    Extends Call.StateIDsStep log
      (fetchMissing env t roomVersion ids haveEventMap log).2 := by
  induction ids generalizing haveEventMap log with
  | nil => exact Extends.same _ _
  | cons i tl ih =>
    have q : ∀ r, Call.StateIDsStep (Call.getEvent t.origin i r) := fun _ => rfl
    simp only [fetchMissing]
    split
    · exact Extends.call _ _ (q _)
    · rename_i pdus hg
      have hx := indexFetchedPDUs_steps env roomVersion pdus haveEventMap
        (log ++ [Call.getEvent t.origin i (env.getEvent log t.origin i)])
      split
      · rename_i err log1 hi
        rw [hi] at hx
        exact (Extends.call _ _ (q _)).andThen hx
      · rename_i m log1 hi
        rw [hi] at hx
        exact ((Extends.call _ _ (q _)).andThen hx).andThen (ih _ _)

theorem createRespStateFromStateIDs_steps {A : Type} (env : Env A) (stateIDs : RespStateIDs)
    (haveEventMap : List (String × HeaderedEvent)) (log : Log) :
    Extends Call.StateIDsStep log
      (createRespStateFromStateIDs env stateIDs haveEventMap log).2 := by
  unfold createRespStateFromStateIDs
  split
  · exact Extends.same _ _
  · split
    · exact Extends.same _ _
    · simp only
      split
      · exact Extends.call _ _ (show Call.StateIDsStep _ from rfl)
      · exact Extends.call _ _ (show Call.StateIDsStep _ from rfl)

theorem lookupMissingStateViaStateIDs_steps {A : Type} (env : Env A) (t : TxnReq) (e : Event)
    (roomVersion : String) (log : Log) :
    Extends Call.StateIDsStep
      (log ++ [Call.lookupStateIDs t.origin e.roomID e.eventID
        (env.lookupStateIDs log t.origin e.roomID e.eventID)])
      (lookupMissingStateViaStateIDs env t e roomVersion log).2 := by
  unfold lookupMissingStateViaStateIDs
  simp only
  split
  · exact Extends.same _ _
  · rename_i stateIDs hs
    have h1 := queryHaveEvents_steps env [stateIDs.stateEventIDs, stateIDs.authEventIDs] []
      (log ++ [Call.lookupStateIDs t.origin e.roomID e.eventID
        (env.lookupStateIDs log t.origin e.roomID e.eventID)])
    split
    · rename_i err log1 hq
      rw [hq] at h1
      exact h1
    · rename_i m log1 hq
      rw [hq] at h1
      have h2 := fetchMissing_steps env t roomVersion
        (missingIDs m (stateIDs.stateEventIDs ++ stateIDs.authEventIDs)) m log1
      split
      · rename_i err log2 hf
        rw [hf] at h2
        exact h1.andThen h2
      · rename_i m2 log2 hf
        rw [hf] at h2
        exact (h1.andThen h2).andThen (createRespStateFromStateIDs_steps env stateIDs m2 log2)

/-- C11: once `getMissingEvents` has returned `(false, nil)` with log `log1` (`hg`),
`processEventWithMissingState` first runs the `/state_ids` lookup: its next call is the
`/state_ids` request, followed only by calls of that lookup (so no `/state` request).
* If that lookup succeeds, the step goes on to the authorization check with its state;
  `/state` is not requested.
* If it fails, the next call is the `/state` request, and the `/state` lookup decides:
  on success the step goes on to the authorization check with its state; on failure the
  error of the `/state` lookup is returned, and no commit and no entry into
  `processEvent` was made since `log1`. -/
theorem state_lookup_ladder {A : Type} (env : Env A) (t : TxnReq) (fuel : Nat) (e : Event)
    (roomVersion : String) (isInboundTxn : Bool) (log log1 : Log)
    (hg : getMissingEvents env t fuel e roomVersion isInboundTxn log =
      some (false, none, log1)) :
    (∃ new, (lookupMissingStateViaStateIDs env t e roomVersion log1).2 =
        log1 ++ Call.lookupStateIDs t.origin e.roomID e.eventID
          (env.lookupStateIDs log1 t.origin e.roomID e.eventID) :: new ∧
      ∀ c ∈ new, c.isStateIDsStep = true) ∧
    (∀ respState log2,
      lookupMissingStateViaStateIDs env t e roomVersion log1 = (.ok respState, log2) →
      processEventWithMissingState env t (fuel + 1) e roomVersion isInboundTxn log =
        retryAllowedState env t fuel e roomVersion isInboundTxn respState log2) ∧
    (∀ err1 log2,
      lookupMissingStateViaStateIDs env t e roomVersion log1 = (.error err1, log2) →
      (∃ new, (lookupMissingStateViaState env t e roomVersion log2).2 =
          log2 ++ Call.lookupState t.origin e.roomID e.eventID roomVersion
            (env.lookupState log2 t.origin e.roomID e.eventID roomVersion) :: new ∧
        ∀ c ∈ new, c.isStateStep = true) ∧
      (∀ respState log3,
        lookupMissingStateViaState env t e roomVersion log2 = (.ok respState, log3) →
        processEventWithMissingState env t (fuel + 1) e roomVersion isInboundTxn log =
          retryAllowedState env t fuel e roomVersion isInboundTxn respState log3) ∧
      (∀ err2 log3,
        lookupMissingStateViaState env t e roomVersion log2 = (.error err2, log3) →
        processEventWithMissingState env t (fuel + 1) e roomVersion isInboundTxn log =
            some (some err2, log3) ∧
          ∃ new, log3 = log1 ++ new ∧
            ∀ c ∈ new, c.isProcessEvent = false ∧ c.isCommit = false)) := by
  refine ⟨?_, ?_, ?_⟩
  · obtain ⟨new, hnew, hall⟩ := lookupMissingStateViaStateIDs_steps env t e roomVersion log1
    exact ⟨new, by rw [hnew]; simp, hall⟩
  · intro respState log2 h1
    simp only [processEventWithMissingState, hg, h1]
  · intro err1 log2 h1
    refine ⟨?_, ?_, ?_⟩
    · obtain ⟨new, hnew, hall⟩ := lookupMissingStateViaState_steps env t e roomVersion log2
      exact ⟨new, by rw [hnew]; simp, hall⟩
    · intro respState log3 h2
      simp only [processEventWithMissingState, hg, h1, h2]
    · intro err2 log3 h2
      refine ⟨by simp only [processEventWithMissingState, hg, h1, h2], ?_⟩
      have x1 := lookupMissingStateViaStateIDs_extends env t e roomVersion log1
      have x2 := lookupMissingStateViaState_extends env t e roomVersion log2
      rw [h1] at x1
      rw [h2] at x2
      exact x1.andThen x2

/-- C11 (witness): with a remote server that answers neither `/state_ids` nor `/state`,
the error returned is the one of `/state`, after the four calls
`QueryLatestEventsAndState`, `/get_missing_events`, `/state_ids`, `/state`. -/
theorem state_lookup_ladder_witness :
    getMissingEvents noStateEnv gapTxn 1 evE "1" false [] =
        some (false, none,
          [Call.queryLatestEventsAndState "r" (.ok { latestEvents := [⟨"X"⟩], depth := 5 }),
           Call.lookupMissingEvents "remote" "r"
             { limit := 20, minDepth := -15, earliestEvents := ["X"], latestEvents := ["E"] }
             "1" (.error (GoError.other "connection refused"))]) ∧
      processEventWithMissingState noStateEnv gapTxn (1 + 1) evE "1" false [] =
        some (some (GoError.other "no state"),
          [Call.queryLatestEventsAndState "r" (.ok { latestEvents := [⟨"X"⟩], depth := 5 }),
           Call.lookupMissingEvents "remote" "r"
             { limit := 20, minDepth := -15, earliestEvents := ["X"], latestEvents := ["E"] }
             "1" (.error (GoError.other "connection refused")),
           Call.lookupStateIDs "remote" "r" "E" (.error (GoError.other "no state ids")),
           Call.lookupState "remote" "r" "E" "1" (.error (GoError.other "no state"))]) :=
  ⟨rfl,
    ((state_lookup_ladder noStateEnv gapTxn 1 evE "1" false [] _ rfl).2.2
      (GoError.other "no state ids") _ rfl).2.2 (GoError.other "no state") _ rfl |>.1⟩

/-! ## C15: the public-rooms output consumer -/

/-- The outcomes of `onMessage`.  It returns nil with the log untouched (no query to the
room-state engine, no `UpdateRoomFromEvents`) when the message does not parse as an
`OutputEvent` or its type is not `NewRoomEvent`.  For a `NewRoomEvent` message without
content, or with an event whose fields were not decoded, it panics.  For a `NewRoomEvent`
message with its content `nre` and a decoded event it queries the added ids, then the
removed ids, then calls `UpdateRoomFromEvents`, and returns the error of the first of
these steps that fails; `UpdateRoomFromEvents` is called, once and last, with the events
the two queries resolved, exactly when both queries succeeded, and its result is
returned. -/
theorem onMessage_outcomes (env : ConsumerEnv) (value : String) (log : List ConsumerCall) :
    (∀ err, env.unmarshalOutputEvent value = .error err →
      onMessage env value log = some (none, log)) ∧
    (∀ output, env.unmarshalOutputEvent value = .ok output →
      output.type ≠ env.outputTypeNewRoomEvent →
      onMessage env value log = some (none, log)) ∧
    (∀ output, env.unmarshalOutputEvent value = .ok output →
      output.type = env.outputTypeNewRoomEvent →
      (output.newRoomEvent = none ∨
        ∃ nre, output.newRoomEvent = some nre ∧ nre.event = none) →
      onMessage env value log = none) ∧
    (∀ output nre ev err, env.unmarshalOutputEvent value = .ok output →
      output.type = env.outputTypeNewRoomEvent →
      output.newRoomEvent = some nre → nre.event = some ev →
      env.queryEventsByID log nre.addsStateEventIDs = .error err →
      onMessage env value log =
        some (some err,
          log ++ [ConsumerCall.queryEventsByID nre.addsStateEventIDs (.error err)])) ∧
    (∀ output nre ev addQueryRes err, env.unmarshalOutputEvent value = .ok output →
      output.type = env.outputTypeNewRoomEvent →
      output.newRoomEvent = some nre → nre.event = some ev →
      env.queryEventsByID log nre.addsStateEventIDs = .ok addQueryRes →
      env.queryEventsByID
        (log ++ [ConsumerCall.queryEventsByID nre.addsStateEventIDs (.ok addQueryRes)])
        nre.removesStateEventIDs = .error err →
      onMessage env value log =
        some (some err,
          log ++ [ConsumerCall.queryEventsByID nre.addsStateEventIDs (.ok addQueryRes)] ++
            [ConsumerCall.queryEventsByID nre.removesStateEventIDs (.error err)])) ∧
    (∀ output nre ev addQueryRes remQueryRes, env.unmarshalOutputEvent value = .ok output →
      output.type = env.outputTypeNewRoomEvent →
      output.newRoomEvent = some nre → nre.event = some ev →
      env.queryEventsByID log nre.addsStateEventIDs = .ok addQueryRes →
      env.queryEventsByID
        (log ++ [ConsumerCall.queryEventsByID nre.addsStateEventIDs (.ok addQueryRes)])
        nre.removesStateEventIDs = .ok remQueryRes →
      onMessage env value log =
        some (env.updateRoomFromEvents
            (log ++ [ConsumerCall.queryEventsByID nre.addsStateEventIDs (.ok addQueryRes)] ++
              [ConsumerCall.queryEventsByID nre.removesStateEventIDs (.ok remQueryRes)])
            (addQueryRes.map HeaderedEvent.unwrap) (remQueryRes.map HeaderedEvent.unwrap),
          log ++ [ConsumerCall.queryEventsByID nre.addsStateEventIDs (.ok addQueryRes)] ++
            [ConsumerCall.queryEventsByID nre.removesStateEventIDs (.ok remQueryRes)] ++
            [ConsumerCall.updateRoomFromEvents (addQueryRes.map HeaderedEvent.unwrap)
              (remQueryRes.map HeaderedEvent.unwrap)
              (env.updateRoomFromEvents
                (log ++ [ConsumerCall.queryEventsByID nre.addsStateEventIDs
                    (.ok addQueryRes)] ++
                  [ConsumerCall.queryEventsByID nre.removesStateEventIDs (.ok remQueryRes)])
                (addQueryRes.map HeaderedEvent.unwrap)
                (remQueryRes.map HeaderedEvent.unwrap))])) := by
  refine ⟨?_, ?_, ?_, ?_, ?_, ?_⟩
  · intro err h
    simp only [onMessage, h]
  · intro output h hty
    simp only [onMessage, h, hty, ne_eq, not_false_eq_true, if_true]
  · intro output h hty hnone
    rcases hnone with hn | ⟨nre, hn, he⟩
    · simp [onMessage, h, hty, hn]
    · simp [onMessage, h, hty, hn, he]
  · intro output nre ev err h hty hn he hq
    simp [onMessage, h, hty, hn, he, hq]
  · intro output nre ev addQueryRes err h hty hn he hq1 hq2
    simp [onMessage, h, hty, hn, he, hq1, hq2]
  · intro output nre ev addQueryRes remQueryRes h hty hn he hq1 hq2
    simp [onMessage, h, hty, hn, he, hq1, hq2]

/-- C15 (failing input): a message that parses as an `OutputEvent` of type
`new_room_event` without content.  `onMessage` dereferences the nil
`output.NewRoomEvent` at line 81 and panics: it returns nothing, where the claim has the
two queries and `UpdateRoomFromEvents` (all three succeed in `bareEnv`) and a nil
result. -/
theorem onMessage_panics_without_content :
    bareEnv.unmarshalOutputEvent "m" =
        .ok { type := bareEnv.outputTypeNewRoomEvent, newRoomEvent := none } ∧
      onMessage bareEnv "m" [] = none :=
  ⟨rfl, rfl⟩

/-! ## C13, C14: findPath -/

theorem mapGet_foldl_mapSet (events : List Event) (m : List (String × Event)) (id : String) :
    mapGet (events.foldl (fun m ev => mapSet m ev.eventID ev) m) id =
      match lastWithID events id with
      | some ev => some ev
      | none => mapGet m id := by
  induction events generalizing m with
  | nil => simp [lastWithID]
  | cons e rest ih =>
    simp only [List.foldl_cons, lastWithID]
    rw [ih]
    cases lastWithID rest id with
    | some ev => rfl
    | none =>
      simp only
      rw [mapGet_mapSet]
      by_cases h : e.eventID = id <;> simp [h]

/-- The id map of `findPath` holds, for each id, the last event of the bag with that
id. -/
theorem mapGet_buildEventIDMap (events : List Event) :
    mapGet (buildEventIDMap events) = lastWithID events := by
  funext id
  unfold buildEventIDMap
  rw [mapGet_foldl_mapSet]
  cases lastWithID events id <;> simp [mapGet]

theorem findPathLoop_nil (m : List (String × Event)) (T : List String) (fuel : Nat)
    (seen : List String) : findPathLoop m T (fuel + 1) [] seen = some false := by
  simp [findPathLoop]

theorem findPathLoop_concat (m : List (String × Event)) (T : List String) (fuel : Nat)
    (rest : List String) (next : String) (seen : List String) :
    findPathLoop m T (fuel + 1) (rest ++ [next]) seen =
      if next ∈ seen then findPathLoop m T fuel rest seen
      else if next ∈ T then some true
      else
        match mapGet m next with
        | some ev => findPathLoop m T fuel (rest ++ ev.prevEventIDs) (next :: seen)
        | none => findPathLoop m T fuel rest (next :: seen) := by
  simp [findPathLoop]

/-- Soundness of the scan: a `true` result comes with a chain from an id of the stack. -/
theorem findPathLoop_true (m : List (String × Event)) (T : List String) (fuel : Nat)
    (stack seen : List String) (h : findPathLoop m T fuel stack seen = some true) :
    ∃ a ∈ stack, Reaches (mapGet m) T a := by
  induction fuel generalizing stack seen with
  | zero => simp [findPathLoop] at h
  | succ fuel ih =>
    rcases List.eq_nil_or_concat stack with rfl | ⟨rest, next, hs⟩
    · simp [findPathLoop_nil] at h
    · rw [List.concat_eq_append] at hs
      subst hs
      rw [findPathLoop_concat] at h
      split at h
      · obtain ⟨a, ha, hr⟩ := ih _ _ h
        exact ⟨a, List.mem_append_left _ ha, hr⟩
      · split at h
        · rename_i hT
          exact ⟨next, by simp, Reaches.target hT⟩
        · split at h
          · rename_i ev hev
            obtain ⟨a, ha, hr⟩ := ih _ _ h
            rcases List.mem_append.1 ha with ha | ha
            · exact ⟨a, List.mem_append_left _ ha, hr⟩
            · exact ⟨next, by simp, Reaches.step hev ha hr⟩
          · obtain ⟨a, ha, hr⟩ := ih _ _ h
            exact ⟨a, List.mem_append_left _ ha, hr⟩

/-- Completeness of the scan.  When no seen id is a target and every successor of a seen
id is seen or on the stack, a `false` result excludes a chain from every id of the stack
and every seen id. -/
theorem findPathLoop_false (m : List (String × Event)) (T : List String) (fuel : Nat)
    (stack seen : List String) (h : findPathLoop m T fuel stack seen = some false)
    (h1 : ∀ s ∈ seen, s ∉ T)
    (h2 : ∀ s ∈ seen, ∀ ev, mapGet m s = some ev → ∀ b ∈ ev.prevEventIDs,
      b ∈ seen ∨ b ∈ stack) :
    ∀ a, a ∈ stack ∨ a ∈ seen → ¬ Reaches (mapGet m) T a := by
  induction fuel generalizing stack seen with
  | zero => simp [findPathLoop] at h
  | succ fuel ih =>
    rcases List.eq_nil_or_concat stack with rfl | ⟨rest, next, hs⟩
    · intro a ha hr
      have ha' : a ∈ seen := by simpa using ha
      clear ha
      induction hr with
      | target hT => exact h1 _ ha' hT
      | step hev hb _ ihr =>
        rcases h2 _ ha' _ hev _ hb with hb' | hb'
        · exact ihr hb'
        · simp at hb'
    · rw [List.concat_eq_append] at hs
      subst hs
      rw [findPathLoop_concat] at h
      split at h
      · rename_i hseen
        have := ih rest seen h h1 (by
          intro s hs ev hev b hb
          rcases h2 s hs ev hev b hb with hb' | hb'
          · exact Or.inl hb'
          · rcases List.mem_append.1 hb' with hb' | hb'
            · exact Or.inr hb'
            · simp only [List.mem_singleton] at hb'
              subst hb'
              exact Or.inl hseen)
        intro a ha
        apply this
        rcases ha with ha | ha
        · rcases List.mem_append.1 ha with ha | ha
          · exact Or.inl ha
          · simp only [List.mem_singleton] at ha
            subst ha
            exact Or.inr hseen
        · exact Or.inr ha
      · split at h
        · simp at h
        · rename_i hseen hT
          split at h
          · rename_i ev hev
            have := ih (rest ++ ev.prevEventIDs) (next :: seen) h
              (by
                intro s hs
                rcases List.mem_cons.1 hs with rfl | hs
                · exact hT
                · exact h1 s hs)
              (by
                intro s hs ev' hev' b hb
                rcases List.mem_cons.1 hs with rfl | hs
                · rw [hev] at hev'
                  cases hev'
                  exact Or.inr (List.mem_append_right _ hb)
                · rcases h2 s hs ev' hev' b hb with hb' | hb'
                  · exact Or.inl (List.mem_cons_of_mem _ hb')
                  · rcases List.mem_append.1 hb' with hb' | hb'
                    · exact Or.inr (List.mem_append_left _ hb')
                    · simp only [List.mem_singleton] at hb'
                      subst hb'
                      exact Or.inl (List.mem_cons_self _ _))
            intro a ha
            apply this
            rcases ha with ha | ha
            · rcases List.mem_append.1 ha with ha | ha
              · exact Or.inl (List.mem_append_left _ ha)
              · simp only [List.mem_singleton] at ha
                subst ha
                exact Or.inr (List.mem_cons_self _ _)
            · exact Or.inr (List.mem_cons_of_mem _ ha)
          · rename_i hnone
            have := ih rest (next :: seen) h
              (by
                intro s hs
                rcases List.mem_cons.1 hs with rfl | hs
                · exact hT
                · exact h1 s hs)
              (by
                intro s hs ev' hev' b hb
                rcases List.mem_cons.1 hs with rfl | hs
                · rw [hnone] at hev'
                  cases hev'
                · rcases h2 s hs ev' hev' b hb with hb' | hb'
                  · exact Or.inl (List.mem_cons_of_mem _ hb')
                  · rcases List.mem_append.1 hb' with hb' | hb'
                    · exact Or.inr hb'
                    · simp only [List.mem_singleton] at hb'
                      subst hb'
                      exact Or.inl (List.mem_cons_self _ _))
            intro a ha
            apply this
            rcases ha with ha | ha
            · rcases List.mem_append.1 ha with ha | ha
              · exact Or.inl ha
              · simp only [List.mem_singleton] at ha
                subst ha
                exact Or.inr (List.mem_cons_self _ _)
            · exact Or.inr (List.mem_cons_of_mem _ ha)

theorem pendingWeight_cons_le (m : List (String × Event)) (next : String)
    (seen : List String) : pendingWeight m (next :: seen) ≤ pendingWeight m seen := by
  induction m with
  | nil => simp [pendingWeight]
  | cons hd tl ih =>
    obtain ⟨k, ev⟩ := hd
    simp only [pendingWeight, List.mem_cons]
    by_cases h1 : k ∈ seen
    · simp only [h1, or_true, if_true]
      omega
    · by_cases h2 : k = next
      · simp only [h2, true_or, if_true]
        omega
      · simp only [h1, h2, or_self, if_false]
        omega

theorem pendingWeight_cons_of_mapGet (m : List (String × Event)) (next : String)
    (seen : List String) (ev : Event) (hseen : next ∉ seen) (hev : mapGet m next = some ev) :
    pendingWeight m (next :: seen) + ev.prevEventIDs.length ≤ pendingWeight m seen := by
  induction m with
  | nil => simp [mapGet] at hev
  | cons hd tl ih =>
    obtain ⟨k, ev'⟩ := hd
    unfold mapGet at hev
    by_cases h : k = next
    · subst h
      simp only [if_true, Option.some.injEq] at hev
      subst hev
      have := pendingWeight_cons_le tl k seen
      simp only [pendingWeight, List.mem_cons, true_or, if_true, hseen, if_false]
      omega
    · simp only [h, if_false] at hev
      have := ih hev
      simp only [pendingWeight, List.mem_cons, h, false_or]
      omega

/-- Termination of the scan: a budget above the stack length plus the pending weight is
enough. -/
theorem findPathLoop_isSome (m : List (String × Event)) (T : List String) (fuel : Nat)
    (stack seen : List String) (h : stack.length + pendingWeight m seen < fuel) :
    ∃ b, findPathLoop m T fuel stack seen = some b := by
  induction fuel generalizing stack seen with
  | zero => omega
  | succ fuel ih =>
    rcases List.eq_nil_or_concat stack with rfl | ⟨rest, next, hs⟩
    · exact ⟨false, findPathLoop_nil m T fuel seen⟩
    · rw [List.concat_eq_append] at hs
      subst hs
      rw [findPathLoop_concat]
      simp only [List.length_append, List.length_singleton] at h
      split
      · exact ih _ _ (by omega)
      · rename_i hseen
        split
        · exact ⟨true, rfl⟩
        · split
          · rename_i ev hev
            have := pendingWeight_cons_of_mapGet m next seen ev hseen hev
            exact ih _ _ (by simp only [List.length_append]; omega)
          · have := pendingWeight_cons_le m next seen
            exact ih _ _ (by omega)

theorem pendingWeight_mapSet (m : List (String × Event)) (k : String) (v : Event) :
    pendingWeight (mapSet m k v) [] ≤ pendingWeight m [] + v.prevEventIDs.length := by
  induction m with
  | nil => simp [mapSet, pendingWeight]
  | cons hd tl ih =>
    obtain ⟨a, b⟩ := hd
    unfold mapSet
    by_cases h : a = k
    · simp only [h, if_true, pendingWeight, List.not_mem_nil, if_false]
      omega
    · simp only [h, if_false, pendingWeight, List.not_mem_nil]
      omega

theorem pendingWeight_foldl_mapSet (events : List Event) (m : List (String × Event)) :
    pendingWeight (events.foldl (fun m ev => mapSet m ev.eventID ev) m) [] ≤
      pendingWeight m [] + (events.map (fun ev => ev.prevEventIDs.length)).sum := by
  induction events generalizing m with
  | nil => simp
  | cons e rest ih =>
    simp only [List.foldl_cons, List.map_cons, List.sum_cons]
    have h1 := ih (mapSet m e.eventID e)
    have h2 := pendingWeight_mapSet m e.eventID e
    omega

/-- The source `findPath` always returns: its budget is enough for every bag. -/
theorem findPath_isSome (events : List Event) (fromEvent : Event) (T : List String) :
    ∃ b, findPath events fromEvent T = some b := by
  unfold findPath
  apply findPathLoop_isSome
  have := pendingWeight_foldl_mapSet events []
  simp only [pendingWeight, Nat.zero_add] at this
  unfold findPathBudget buildEventIDMap
  omega

theorem lastWithID_mem (events : List Event) (id : String) (ev : Event)
    (h : lastWithID events id = some ev) : ev ∈ events ∧ ev.eventID = id := by
  induction events with
  | nil => simp [lastWithID] at h
  | cons e rest ih =>
    simp only [lastWithID] at h
    split at h
    · rename_i ev' hev'
      simp only [Option.some.injEq] at h
      subst h
      exact ⟨List.mem_cons_of_mem _ (ih hev').1, (ih hev').2⟩
    · split at h
      · rename_i hid
        simp only [Option.some.injEq] at h
        subst h
        exact ⟨List.mem_cons_self _ _, hid⟩
      · simp at h

theorem lastWithID_of_mem (events : List Event) (id : String) (ev : Event)
    (hnd : (events.map Event.eventID).Nodup) (hmem : ev ∈ events) (hid : ev.eventID = id) :
    lastWithID events id = some ev := by
  induction events with
  | nil => simp at hmem
  | cons e rest ih =>
    simp only [List.map_cons, List.nodup_cons] at hnd
    simp only [lastWithID]
    rcases List.mem_cons.1 hmem with rfl | hmem
    · have hnone : lastWithID rest id = none := by
        cases hl : lastWithID rest id with
        | none => rfl
        | some ev' =>
          exfalso
          have := lastWithID_mem rest id ev' hl
          apply hnd.1
          rw [hid, ← this.2]
          exact List.mem_map_of_mem _ this.1
      simp [hnone, hid]
    · rw [ih hnd.2 hmem]

theorem ChainToTarget.of_reaches (events : List Event) (T : List String) (a : String)
    (h : Reaches (lastWithID events) T a) : ChainToTarget events T a := by
  induction h with
  | target hT => exact ChainToTarget.target hT
  | step hev hb _ ih =>
    have := lastWithID_mem events _ _ hev
    exact ChainToTarget.step this.1 this.2 hb ih

theorem Reaches.of_chainToTarget (events : List Event) (T : List String) (a : String)
    (hnd : (events.map Event.eventID).Nodup) (h : ChainToTarget events T a) :
    Reaches (lastWithID events) T a := by
  induction h with
  | target hT => exact Reaches.target hT
  | step hmem hid hb _ ih =>
    exact Reaches.step (lastWithID_of_mem events _ _ hnd hmem hid) hb ih

/-- The truth value of `findPath` is reachability through the last events per id. -/
theorem findPath_true_iff (events : List Event) (fromEvent : Event) (T : List String) :
    findPath events fromEvent T = some true ↔
      ∃ id0 ∈ fromEvent.prevEventIDs, Reaches (lastWithID events) T id0 := by
  constructor
  · intro h
    have := findPathLoop_true _ _ _ _ _ h
    rw [mapGet_buildEventIDMap] at this
    exact this
  · rintro ⟨id0, hid0, hr⟩
    obtain ⟨b, hb⟩ := findPath_isSome events fromEvent T
    cases b with
    | true => exact hb
    | false =>
      exfalso
      have := findPathLoop_false _ _ _ _ _ hb (by simp) (by simp) id0 (Or.inl hid0)
      rw [mapGet_buildEventIDMap] at this
      exact this hr

/-- C13 (failing input): for the bag `[P]`, the start event `E` and the target `X`, where
`[P]` is the path, `findPath` yields the truth value `true`, and for the empty bag the
truth value `false`: the result is not a sequence of events. -/
theorem findPath_yields_truth_value :
    findPath [evP] evE ["X"] = some true ∧ findPath [] evE ["X"] = some false ∧
      findPath [evP, evS] evE ["X"] = some true :=
  ⟨by decide, by decide, by decide⟩

/-- C14 (counterexample): in `dupBag` the id `A` is the id of an event whose previous
events contain the target `X`, so the chain `A, X` of the claim exists from the start
event, but `findPath` keeps only the last event with id `A` and returns `false`. -/
theorem findPath_duplicate_id_chain_missed :
    ChainToTarget dupBag ["X"] "A" ∧ "A" ∈ evFromA.prevEventIDs ∧
      findPath dupBag evFromA ["X"] = some false :=
  ⟨@ChainToTarget.step dupBag ["X"] "A" "X"
      { eventID := "A", roomID := "r", prevEventIDs := ["X"], body := 1 }
      (by decide) rfl (by decide) (@ChainToTarget.target dupBag ["X"] "X" (by decide)),
    by decide, by decide⟩

/-- C14 (amended): for every bag of events (cycles and duplicate ids allowed), start
event and list of target ids, `findPath` terminates with a truth value.  It is `true` if
and only if a target is reachable from a previous event of the start event by a chain in
which each id before the target is one for which the last event of the bag with that id
has the next id among its previous events; otherwise it is `false`.  A `true` result
always comes with a chain of the specification, and for a bag with pairwise different
event ids the result is `true` exactly when such a chain exists. -/
theorem findPath_reachability (events : List Event) (fromEvent : Event) (T : List String) :
    (∃ b, findPath events fromEvent T = some b) ∧
    (findPath events fromEvent T = some true ↔
      ∃ id0 ∈ fromEvent.prevEventIDs, Reaches (lastWithID events) T id0) ∧
    (findPath events fromEvent T = some false ↔
      ¬ ∃ id0 ∈ fromEvent.prevEventIDs, Reaches (lastWithID events) T id0) ∧
    (findPath events fromEvent T = some true →
      ∃ id0 ∈ fromEvent.prevEventIDs, ChainToTarget events T id0) ∧
    ((events.map Event.eventID).Nodup →
      (findPath events fromEvent T = some true ↔
        ∃ id0 ∈ fromEvent.prevEventIDs, ChainToTarget events T id0)) := by
  have hiff := findPath_true_iff events fromEvent T
  have hsome := findPath_isSome events fromEvent T
  refine ⟨hsome, hiff, ?_, ?_, ?_⟩
  · rw [← hiff]
    obtain ⟨b, hb⟩ := hsome
    rw [hb]
    cases b <;> simp
  · intro h
    obtain ⟨id0, h0, hr⟩ := hiff.1 h
    exact ⟨id0, h0, ChainToTarget.of_reaches events T id0 hr⟩
  · intro hnd
    rw [hiff]
    constructor
    · rintro ⟨id0, h0, hr⟩
      exact ⟨id0, h0, ChainToTarget.of_reaches events T id0 hr⟩
    · rintro ⟨id0, h0, hc⟩
      exact ⟨id0, h0, Reaches.of_chainToTarget events T id0 hnd hc⟩

/-! ## C12: no bound on the recursion -/

theorem findPath_chainEvent (id : String) :
    findPath [chainEvent (id ++ "+")] (chainEvent id) ["X"] = some true := by
  simp [findPath, findPathBudget, buildEventIDMap, chainEvent, findPathLoop, mapSet]

/-- In the chain scenario `processEvent` returns for no budget: each event of the chain
sends the run one level deeper, to the next event of the chain. -/
theorem processEvent_chainEnv_none (fuel : Nat) :
    ∀ (id : String) (inbound : Bool) (log : Log),
      processEvent chainEnv gapTxn fuel (chainEvent id) inbound log = none := by
  induction fuel using Nat.strong_induction_on with
  | _ n ih =>
    intro id inbound log
    have hq : ∀ (l : Log) (a : String) (b : List String) (c : List (String × String)),
        chainEnv.queryStateAfterEvents l a b c =
          .ok { roomExists := true, roomVersion := "1", prevEventsExist := false
                stateEvents := [] } := fun _ _ _ _ => rfl
    have hl : ∀ (l : Log) (a : String), chainEnv.queryLatestEventsAndState l a =
        .ok { latestEvents := [⟨"X"⟩], depth := 5 } := fun _ _ => rfl
    have hm : ∀ (l : Log) (o r : String) (res : QueryLatestEventsAndStateResponse)
        (rv : String),
        chainEnv.lookupMissingEvents l o r (missingEventsRequest res (chainEvent id)) rv =
          .ok { events := [chainEvent (id ++ "+")] } := fun _ _ _ _ _ => rfl
    have hp : ∀ (evs : List Event) (e : Event) (l : List String),
        chainEnv.pathOf evs e l = evs := fun _ _ _ => rfl
    have hf := findPath_chainEvent id
    cases n with
    | zero => rfl
    | succ n1 =>
      simp only [processEvent, hq]
      cases n1 with
      | zero => rfl
      | succ n2 =>
        simp only [processEventWithMissingState]
        cases n2 with
        | zero => rfl
        | succ n3 =>
          simp only [getMissingEvents, hl, hm, hp, List.map, hf]
          cases n3 with
          | zero => rfl
          | succ n4 =>
            simp only [processPath]
            rw [ih n4 (by omega)]
            simp

/-- C12 (counterexample): in the chain scenario, where the remote server answers every
`/get_missing_events` request with one more unknown event, the recursion through
`getMissingEvents` and `processEvent` has no end: `processEventWithMissingState` returns
for no step budget. -/
theorem processEventWithMissingState_unbounded_chain :
    NeverReturns (fun fuel =>
      processEventWithMissingState chainEnv gapTxn fuel (chainEvent "E") "1" true []) := by
  intro fuel
  have hl : ∀ (l : Log) (a : String), chainEnv.queryLatestEventsAndState l a =
      .ok { latestEvents := [⟨"X"⟩], depth := 5 } := fun _ _ => rfl
  have hm : ∀ (l : Log) (o r : String) (res : QueryLatestEventsAndStateResponse)
      (rv : String),
      chainEnv.lookupMissingEvents l o r (missingEventsRequest res (chainEvent "E")) rv =
        .ok { events := [chainEvent ("E" ++ "+")] } := fun _ _ _ _ _ => rfl
  have hp : ∀ (evs : List Event) (e : Event) (l : List String),
      chainEnv.pathOf evs e l = evs := fun _ _ _ => rfl
  have hf := findPath_chainEvent "E"
  cases fuel with
  | zero => rfl
  | succ n2 =>
    simp only [processEventWithMissingState]
    cases n2 with
    | zero => rfl
    | succ n3 =>
      simp only [getMissingEvents, hl, hm, hp, List.map, hf]
      cases n3 with
      | zero => rfl
      | succ n4 =>
        simp only [processPath]
        rw [processEvent_chainEnv_none n4]

theorem getMissingEvents_retryEnv (fuel : Nat) (e : Event) (inbound : Bool) (log : Log)
    (hf : findPath [] e ["X"] = some false) :
    ∃ log1, getMissingEvents retryEnv gapTxn (fuel + 1) e "1" inbound log =
      some (false, none, log1) := by
  have hl : ∀ (l : Log) (a : String), retryEnv.queryLatestEventsAndState l a =
      .ok { latestEvents := [⟨"X"⟩], depth := 5 } := fun _ _ => rfl
  have hm : ∀ (l : Log) (o r : String) (m : MissingEvents) (rv : String),
      retryEnv.lookupMissingEvents l o r m rv = .ok { events := [] } := fun _ _ _ _ _ => rfl
  exact ⟨_, by simp only [getMissingEvents, hl, hm, List.map, hf]; rfl⟩

theorem lookups_retryEnv (e : Event) (log : Log) :
    ∃ log1 log2,
      lookupMissingStateViaStateIDs retryEnv gapTxn e "1" log =
        (.error (GoError.other "no state ids"), log1) ∧
      lookupMissingStateViaState retryEnv gapTxn e "1" log1 =
        (.ok { stateEvents := [evS], authEvents := [] }, log2) := by
  have hs : ∀ (l : Log) (o r i : String), retryEnv.lookupStateIDs l o r i =
      .error (GoError.other "no state ids") := fun _ _ _ _ => rfl
  have ht : ∀ (l : Log) (o r i v : String), retryEnv.lookupState l o r i v =
      .ok { stateEvents := [evS], authEvents := [] } := fun _ _ _ _ _ => rfl
  have hc : ∀ (l : Log) (s : RespState), retryEnv.check l s = none := fun _ _ => rfl
  exact ⟨_, _, by simp only [lookupMissingStateViaStateIDs, hs]; rfl,
    by simp only [lookupMissingStateViaState, ht, hc]; rfl⟩

/-- In the retry scenario the recursive call on the auth event `S` never fails: it
returns nil or runs out of budget. -/
theorem processEventWithMissingState_retryEnv_evS (fuel : Nat) (inbound : Bool) (log : Log) :
    processEventWithMissingState retryEnv gapTxn fuel evS "1" inbound log = none ∨
      ∃ log', processEventWithMissingState retryEnv gapTxn fuel evS "1" inbound log =
        some (none, log') := by
  cases fuel with
  | zero => exact Or.inl rfl
  | succ f =>
    cases f with
    | zero => exact Or.inl rfl
    | succ f =>
      right
      obtain ⟨log1, hg⟩ := getMissingEvents_retryEnv f evS inbound log (by decide)
      obtain ⟨log2, log3, h1, h2⟩ := lookups_retryEnv evS log1
      have hc : checkAllowedByState retryEnv evS [evS] = none := by decide
      have hs : ∀ (l : Log) (s : RespState) (h : HeaderedEvent),
          retryEnv.sendEventWithState l s h = none := fun _ _ _ => rfl
      refine ⟨log3 ++ [Call.sendEventWithState { stateEvents := [evS], authEvents := [] }
        (evS.headered "1") none], ?_⟩
      simp only [processEventWithMissingState, hg, h1, h2, retryAllowedState, hc, hs]

/-- In the retry scenario the authorization check of `E` against the unchanged state
`[S]` is repeated after every successful recursive call on `S`, with the same outcome:
the code from the label `retryAllowedState` on returns for no budget. -/
theorem retryAllowedState_retryEnv_none (fuel : Nat) :
    ∀ (inbound : Bool) (log : Log),
      retryAllowedState retryEnv gapTxn fuel evE "1" inbound
        { stateEvents := [evS], authEvents := [] } log = none := by
  induction fuel using Nat.strong_induction_on with
  | _ n ih =>
    intro inbound log
    have hc : checkAllowedByState retryEnv evE [evS] =
        some (GoError.missingAuthEventError "S") := by decide
    have hid : evS.eventID = "S" := rfl
    cases n with
    | zero => rfl
    | succ n1 =>
      simp only [retryAllowedState, hc]
      cases n1 with
      | zero => rfl
      | succ n2 =>
        simp only [missingAuthLoop, hid, ne_eq, not_true_eq_false, if_false]
        rcases processEventWithMissingState_retryEnv_evS n2 inbound log with h | ⟨log', h⟩
        · rw [h]
        · rw [h]
          exact ih n2 (by omega) inbound log'

/-- The retry of the unchanged authorization check repeats forever in the retry
scenario: `processEventWithMissingState` returns for no step budget, with a nesting depth
that never exceeds two. -/
theorem processEventWithMissingState_retry_forever :
    NeverReturns (fun fuel =>
      processEventWithMissingState retryEnv gapTxn fuel evE "1" true []) := by
  intro fuel
  cases fuel with
  | zero => rfl
  | succ f =>
    cases f with
    | zero => rfl
    | succ f =>
      obtain ⟨log1, hg⟩ := getMissingEvents_retryEnv f evE true [] (by decide)
      obtain ⟨log2, log3, h1, h2⟩ := lookups_retryEnv evE log1
      simp only [processEventWithMissingState, hg, h1, h2]
      exact retryAllowedState_retryEnv_none (f + 1) true log3

theorem Extends.mono {P Q : Call → Prop} {log log' : Log} (h : Extends P log log')
    (hPQ : ∀ c, P c → Q c) : Extends Q log log' := by
  obtain ⟨new, e, p⟩ := h
  exact ⟨new, e, fun c hc => hPQ c (p c hc)⟩

theorem Call.noEntry_of_stateIDsStep (c : Call) (h : c.StateIDsStep) : c.NoEntry := by
  cases c <;> first | rfl | simp [Call.StateIDsStep, Call.isStateIDsStep] at h

theorem Call.noEntry_of_stateStep (c : Call) (h : c.StateStep) : c.NoEntry := by
  cases c <;> first | rfl | simp [Call.StateStep, Call.isStateStep] at h

/-- The missing-auth loop ends with the current error when no remaining state event has
the missing id. -/
theorem missingAuthLoop_no_match {A : Type} (env : Env A) (t : TxnReq) (e : Event)
    (rv : String) (inbound : Bool) (rs : RespState) (aid : String) (remaining : List Event)
    (err : GoError) (log : Log) (fuel : Nat)
    (hne : ∀ s ∈ remaining, s.eventID ≠ aid) (hfuel : remaining.length < fuel) :
    missingAuthLoop env t fuel e rv inbound rs aid remaining err log = some (some err, log) := by
  induction remaining generalizing fuel with
  | nil =>
    cases fuel with
    | zero => simp at hfuel
    | succ f => simp [missingAuthLoop]
  | cons s rest ih =>
    cases fuel with
    | zero => simp at hfuel
    | succ f =>
      have hs : s.eventID ≠ aid := hne s (List.mem_cons_self _ _)
      simp only [missingAuthLoop, ne_eq, hs, not_false_eq_true, if_true]
      apply ih
      · intro s' hs'
        exact hne s' (List.mem_cons_of_mem _ hs')
      · simp only [List.length_cons] at hfuel
        omega

/-- The code from the label `retryAllowedState` on returns without a nested step when the
authorization check does not report a missing auth event that is among the state
events. -/
theorem retryAllowedState_returns {A : Type} (env : Env A) (t : TxnReq) (e : Event)
    (rv : String) (inbound : Bool) (rs : RespState) (log : Log)
    (hauth : ∀ aid, checkAllowedByState env e rs.stateEvents =
      some (GoError.missingAuthEventError aid) → ∀ s ∈ rs.stateEvents, s.eventID ≠ aid) :
    ∃ r log', (∀ fuel, rs.stateEvents.length + 2 ≤ fuel →
        retryAllowedState env t fuel e rv inbound rs log = some (r, log')) ∧
      Extends Call.NoEntry log log' := by
  cases hc : checkAllowedByState env e rs.stateEvents with
  | none =>
    refine ⟨env.sendEventWithState log rs (e.headered rv), _, ?_, Extends.call log
      (Call.sendEventWithState rs (e.headered rv) (env.sendEventWithState log rs (e.headered rv)))
      rfl⟩
    intro fuel hfuel
    obtain ⟨f, rfl⟩ : ∃ f, fuel = f + 1 := ⟨fuel - 1, by omega⟩
    simp only [retryAllowedState, hc]
  | some err =>
    refine ⟨some err, log, ?_, Extends.same _ _⟩
    intro fuel hfuel
    obtain ⟨f, rfl⟩ : ∃ f, fuel = f + 1 := ⟨fuel - 1, by omega⟩
    simp only [retryAllowedState, hc]
    cases err with
    | missingAuthEventError aid =>
      simp only
      exact missingAuthLoop_no_match env t e rv inbound rs aid rs.stateEvents _ log f
        (hauth aid hc) (by omega)
    | _ => rfl

theorem lookupMissingStateViaStateIDs_noEntry {A : Type} (env : Env A) (t : TxnReq)
    (e : Event) (rv : String) (log : Log) :
    Extends Call.NoEntry log (lookupMissingStateViaStateIDs env t e rv log).2 :=
  (@Extends.call Call.NoEntry log (Call.lookupStateIDs t.origin e.roomID e.eventID
      (env.lookupStateIDs log t.origin e.roomID e.eventID)) rfl).andThen
    ((lookupMissingStateViaStateIDs_steps env t e rv log).mono Call.noEntry_of_stateIDsStep)

theorem lookupMissingStateViaState_noEntry {A : Type} (env : Env A) (t : TxnReq)
    (e : Event) (rv : String) (log : Log) :
    Extends Call.NoEntry log (lookupMissingStateViaState env t e rv log).2 :=
  (@Extends.call Call.NoEntry log (Call.lookupState t.origin e.roomID e.eventID rv
      (env.lookupState log t.origin e.roomID e.eventID rv)) rfl).andThen
    ((lookupMissingStateViaState_steps env t e rv log).mono Call.noEntry_of_stateStep)

/-- When the bag of `/get_missing_events` has no path (`hpath`), `getMissingEvents`
returns with budget 1 and `ok = false` after its local query and at most the remote
call. -/
theorem getMissingEvents_returns_without_path {A : Type} (env : Env A) (t : TxnReq)
    (e : Event) (rv : String) (inbound : Bool) (log : Log)
    (hpath : ∀ res missingResp, env.queryLatestEventsAndState log e.roomID = .ok res →
      env.lookupMissingEvents (log ++ [Call.queryLatestEventsAndState e.roomID (.ok res)])
        t.origin e.roomID (missingEventsRequest res e) rv = .ok missingResp →
      findPath missingResp.events e (res.latestEvents.map EventReference.eventID) =
        some false) :
    ∃ err log1, (∀ f, getMissingEvents env t (f + 1) e rv inbound log =
        some (false, err, log1)) ∧
      Extends Call.NoEntry
        (log ++ [Call.queryLatestEventsAndState e.roomID
          (env.queryLatestEventsAndState log e.roomID)]) log1 := by
  cases hq : env.queryLatestEventsAndState log e.roomID with
  | error err0 =>
    exact ⟨none, _, fun f => by simp only [getMissingEvents, hq], Extends.same _ _⟩
  | ok res =>
    cases hm : env.lookupMissingEvents
        (log ++ [Call.queryLatestEventsAndState e.roomID (.ok res)]) t.origin e.roomID
        (missingEventsRequest res e) rv with
    | error err0 =>
      cases inbound with
      | true =>
        exact ⟨some err0, _, fun f => by simp [getMissingEvents, hq, hm],
          Extends.call _ (Call.lookupMissingEvents t.origin e.roomID
            (missingEventsRequest res e) rv (.error err0)) rfl⟩
      | false =>
        exact ⟨none, _, fun f => by simp [getMissingEvents, hq, hm],
          Extends.call _ (Call.lookupMissingEvents t.origin e.roomID
            (missingEventsRequest res e) rv (.error err0)) rfl⟩
    | ok missingResp =>
      have hf := hpath res missingResp hq hm
      exact ⟨none, _, fun f => by simp only [getMissingEvents, hq, hm, hf],
        Extends.call _ (Call.lookupMissingEvents t.origin e.roomID
          (missingEventsRequest res e) rv (.ok missingResp)) rfl⟩

/-- C12 (amended): the code has no depth limit and no budget, so its recursion need not
end.  It does return, without any nested step, when there is no path to process
(`hpath`: the local query fails, the remote call fails or `findPath` finds no path) and
the authorization check against the state that the state lookup fetched reports no
missing auth event that is among the fetched state events (`hauth`): every large enough
step budget gives the same result, and after the local query that opens the run no call
starts a nested step (no entry into `processEvent`, no further run of
`getMissingEvents`). -/
theorem processEventWithMissingState_returns_without_nesting {A : Type} (env : Env A)
    (t : TxnReq) (e : Event) (rv : String) (inbound : Bool) (log : Log)
    (hpath : ∀ res missingResp, env.queryLatestEventsAndState log e.roomID = .ok res →
      env.lookupMissingEvents (log ++ [Call.queryLatestEventsAndState e.roomID (.ok res)])
        t.origin e.roomID (missingEventsRequest res e) rv = .ok missingResp →
      findPath missingResp.events e (res.latestEvents.map EventReference.eventID) =
        some false)
    (hauth : ∀ log1 respState log2 aid,
      getMissingEvents env t 1 e rv inbound log = some (false, none, log1) →
      fetchState env t e rv log1 = (.ok respState, log2) →
      checkAllowedByState env e respState.stateEvents =
        some (GoError.missingAuthEventError aid) →
      ∀ s ∈ respState.stateEvents, s.eventID ≠ aid) :
    ∃ n r log',
      (∀ fuel, n ≤ fuel →
        processEventWithMissingState env t fuel e rv inbound log = some (r, log')) ∧
      ∃ rest, log' = log ++ Call.queryLatestEventsAndState e.roomID
          (env.queryLatestEventsAndState log e.roomID) :: rest ∧
        ∀ c ∈ rest, c.isEntry = false := by
  obtain ⟨err, log1, hg, x0⟩ := getMissingEvents_returns_without_path env t e rv inbound log hpath
  have finish : ∀ log', Extends Call.NoEntry log1 log' →
      ∃ rest, log' = log ++ Call.queryLatestEventsAndState e.roomID
          (env.queryLatestEventsAndState log e.roomID) :: rest ∧
        ∀ c ∈ rest, c.isEntry = false := by
    intro log' hx
    obtain ⟨rest, hrest, hall⟩ := x0.andThen hx
    exact ⟨rest, by rw [hrest]; simp, hall⟩
  cases err with
  | some err0 =>
    refine ⟨2, some err0, log1, ?_, finish log1 (Extends.same _ _)⟩
    intro fuel hfuel
    obtain ⟨f, rfl⟩ : ∃ f, fuel = f + 2 := ⟨fuel - 2, by omega⟩
    simp only [processEventWithMissingState, hg f]
  | none =>
    have hg1 : getMissingEvents env t 1 e rv inbound log = some (false, none, log1) := hg 0
    have x1 := lookupMissingStateViaStateIDs_noEntry env t e rv log1
    cases h1 : lookupMissingStateViaStateIDs env t e rv log1 with
    | mk r1 log2 =>
      rw [h1] at x1
      cases r1 with
      | ok respState =>
        have hfetch : fetchState env t e rv log1 = (.ok respState, log2) := by
          simp only [fetchState, h1]
        obtain ⟨r, log', hr, x2⟩ := retryAllowedState_returns env t e rv inbound respState log2
          (fun aid => hauth log1 respState log2 aid hg1 hfetch)
        refine ⟨respState.stateEvents.length + 3, r, log', ?_, finish log' (x1.andThen x2)⟩
        intro fuel hfuel
        obtain ⟨f, rfl⟩ : ∃ f, fuel = f + 2 := ⟨fuel - 2, by omega⟩
        simp only [processEventWithMissingState, hg f, h1]
        exact hr (f + 1) (by omega)
      | error err1 =>
        have x2 := lookupMissingStateViaState_noEntry env t e rv log2
        cases h2 : lookupMissingStateViaState env t e rv log2 with
        | mk r2 log3 =>
          rw [h2] at x2
          cases r2 with
          | error err2 =>
            refine ⟨2, some err2, log3, ?_, finish log3 (x1.andThen x2)⟩
            intro fuel hfuel
            obtain ⟨f, rfl⟩ : ∃ f, fuel = f + 2 := ⟨fuel - 2, by omega⟩
            simp only [processEventWithMissingState, hg f, h1, h2]
          | ok respState =>
            have hfetch : fetchState env t e rv log1 = (.ok respState, log3) := by
              simp only [fetchState, h1, h2]
            obtain ⟨r, log', hr, x3⟩ := retryAllowedState_returns env t e rv inbound respState
              log3 (fun aid => hauth log1 respState log3 aid hg1 hfetch)
            refine ⟨respState.stateEvents.length + 3, r, log', ?_,
              finish log' ((x1.andThen x2).andThen x3)⟩
            intro fuel hfuel
            obtain ⟨f, rfl⟩ : ∃ f, fuel = f + 2 := ⟨fuel - 2, by omega⟩
            simp only [processEventWithMissingState, hg f, h1, h2]
            exact hr (f + 1) (by omega)

theorem fetchState_qEnv (e : Event) (log : Log) :
    ∃ log2, fetchState qEnv gapTxn e "1" log =
      (.ok { stateEvents := [evS], authEvents := [] }, log2) := by
  have hs : ∀ (l : Log) (o r i : String), qEnv.lookupStateIDs l o r i =
      .error (GoError.other "no state ids") := fun _ _ _ _ => rfl
  have ht : ∀ (l : Log) (o r i v : String), qEnv.lookupState l o r i v =
      .ok { stateEvents := [evS], authEvents := [] } := fun _ _ _ _ _ => rfl
  have hc : ∀ (l : Log) (s : RespState), qEnv.check l s = none := fun _ _ => rfl
  refine ⟨log ++ [Call.lookupStateIDs gapTxn.origin e.roomID e.eventID
      (.error (GoError.other "no state ids"))] ++
    [Call.lookupState gapTxn.origin e.roomID e.eventID "1"
      (.ok { stateEvents := [evS], authEvents := [] })] ++
    [Call.check { stateEvents := [evS], authEvents := [] } none], ?_⟩
  simp only [fetchState, lookupMissingStateViaStateIDs, hs, lookupMissingStateViaState, ht, hc]

/-- C12 (witness): in `qEnv` the bag of `/get_missing_events` has no path, `/state`
returns the state `[S]`, and the authorization check reports the missing auth event `Q`,
which is not in `[S]`: the run on the event `E` returns that error for every large enough
budget, and after its local query no call starts a nested step. -/
theorem processEventWithMissingState_returns_without_nesting_witness :
    (∃ log', processEventWithMissingState qEnv gapTxn 5 evE "1" true [] =
        some (some (GoError.missingAuthEventError "Q"), log')) ∧
      ∃ n r log',
        (∀ fuel, n ≤ fuel →
          processEventWithMissingState qEnv gapTxn fuel evE "1" true [] = some (r, log')) ∧
        ∃ rest, log' = [] ++ Call.queryLatestEventsAndState evE.roomID
            (qEnv.queryLatestEventsAndState [] evE.roomID) :: rest ∧
          ∀ c ∈ rest, c.isEntry = false :=
  ⟨⟨_, rfl⟩,
    processEventWithMissingState_returns_without_nesting qEnv gapTxn evE "1" true []
      (fun res missingResp hq hm => by
        have h1 : res = { latestEvents := [⟨"X"⟩], depth := 5 } := by
          injection hq with hq
          exact hq.symm
        have h2 : missingResp = { events := [] } := by
          injection hm with hm
          exact hm.symm
        subst h1 h2
        decide)
      (fun log1 respState log2 aid _ hfetch hcheck s hs => by
        obtain ⟨log3, h3⟩ := fetchState_qEnv evE log1
        rw [h3] at hfetch
        injection hfetch with h4 _
        injection h4 with h4
        subst h4
        have hq : checkAllowedByState qEnv evE [evS] =
            some (GoError.missingAuthEventError "Q") := by decide
        rw [hq] at hcheck
        injection hcheck with hcheck
        injection hcheck with hcheck
        subst hcheck
        simp only [List.mem_singleton] at hs
        subst hs
        decide)⟩

end Dendrite
